import Mathlib

/-!
Verification development for the Spacebars template compiler
(`spacebars` package: stache-tag scanner, template parser, tree optimizer,
specializer and code emitter, plus the `UI` rendering helpers of
`packages/ui/render2.js`).

The JavaScript sources are shallowly embedded below.  Strings are modelled
as `List Char` where the code scans character by character; JavaScript
exceptions are modelled with `Except String` / `Option`; loops whose
progress depends on input consumption take a fuel argument (any fuel of at
least the input length plus one suffices, and the entry points supply it).
-/

set_option maxHeartbeats 1600000

namespace Meteor

/-! ### Character classes -/

/-- JavaScript `\s` (whitespace) character class, over the characters it
matches: ASCII whitespace plus the Unicode space characters. -/
def isJsSpace (c : Char) : Bool :=
  c == ' ' || c == '\t' || c == '\n' || c == '\r' || c == '\x0b' || c == '\x0c' ||
  c.toNat == 0xa0 || c.toNat == 0x1680 ||
  (0x2000 ≤ c.toNat && c.toNat ≤ 0x200a) ||
  c.toNat == 0x2028 || c.toNat == 0x2029 || c.toNat == 0x202f || c.toNat == 0x205f ||
  c.toNat == 0x3000 || c.toNat == 0xfeff

/-- Start character of a JavaScript identifier (ASCII fragment). -/
def isIdStart (c : Char) : Bool := c.isAlpha || c == '_' || c == '$'

/-- Continuation character of a JavaScript identifier (ASCII fragment). -/
def isIdChar (c : Char) : Bool := isIdStart c || c.isDigit

/-! ### The JavaScript tokenizer used by the scanner

Modelled from the spec: the scanner delegates single-token lexing to "a
generic JavaScript tokenizer used by the scanner to recognize identifiers,
numbers, strings, booleans, and null in argument positions" (`JSLexer`,
external to this repository).  `KEYWORD` tokens are merged into
`identifier` because every consumer in the scanner treats the two types
identically; `true`/`false`/`null` get their own types as in the source. -/

inductive TokType where
  | identifier
  | boolean
  | nullLit
  | number
  | stringLit
  | punctuation
  deriving DecidableEq, Repr

/-- Lex the tail of a string literal opened by quote `q`; returns the
remaining token text including the closing quote.  A backslash escapes the
following character (including line terminators, i.e. line continuations);
an unescaped line terminator or end of input fails the lex. -/
def lexStringTail (q : Char) : List Char → Option (List Char)
  | [] => none
  | '\\' :: c :: rest => (lexStringTail q rest).map (fun t => '\\' :: c :: t)
  | ['\\'] => none
  | c :: rest =>
    if c == q then some [c]
    else if c == '\n' || c == '\r' || c.toNat == 0x2028 || c.toNat == 0x2029 then none
    else (lexStringTail q rest).map (fun t => c :: t)

/-- Lex a decimal numeric literal (integer part, optional fraction,
optional exponent) at the head of the input; returns the token text. -/
def lexNumber (l : List Char) : Option (List Char) :=
  let d1 := l.takeWhile Char.isDigit
  let r1 := l.drop d1.length
  let fracPair :=
    match r1 with
    | '.' :: t =>
      let d2 := t.takeWhile Char.isDigit
      ('.' :: d2, t.drop d2.length)
    | _ => (([] : List Char), r1)
  let frac := fracPair.1
  let r2 := fracPair.2
  if d1.isEmpty && frac.length ≤ 1 then none
  else
    let expPart :=
      match r2 with
      | e :: rest3 =>
        if e == 'e' || e == 'E' then
          match rest3 with
          | s :: t2 =>
            if s == '+' || s == '-' then
              let d3 := t2.takeWhile Char.isDigit
              if d3.isEmpty then ([] : List Char) else e :: s :: d3
            else
              let d3 := rest3.takeWhile Char.isDigit
              if d3.isEmpty then ([] : List Char) else e :: d3
          | [] => ([] : List Char)
        else ([] : List Char)
      | [] => ([] : List Char)
    some (d1 ++ frac ++ expPart)

/-- Lex one JavaScript token at the head of the input, returning its type
and text.  Returns `none` at end of input or on a malformed token (the
real lexer raises there). -/
def jsLex (l : List Char) : Option (TokType × List Char) :=
  match l with
  | [] => none
  | c :: rest =>
    if c == '"' || c == '\x27' then
      (lexStringTail c rest).map (fun t => (TokType.stringLit, c :: t))
    else if c.isDigit then
      (lexNumber l).map (fun t => (TokType.number, t))
    else if c == '.' && (match rest.head? with | some d => d.isDigit | none => false) then
      (lexNumber l).map (fun t => (TokType.number, t))
    else if isIdStart c then
      let t := l.takeWhile isIdChar
      let ty :=
        if t == "true".data || t == "false".data then TokType.boolean
        else if t == "null".data then TokType.nullLit
        else TokType.identifier
      some (ty, t)
    else if c == '-' then
      match rest with
      | c2 :: _ =>
        if c2 == '-' || c2 == '=' then some (TokType.punctuation, [c, c2])
        else some (TokType.punctuation, [c])
      | [] => some (TokType.punctuation, [c])
    else some (TokType.punctuation, [c])

/-! ### Stache tag data model (scanner output) -/

inductive TagType where
  | ELSE
  | DOUBLE
  | TRIPLE
  | COMMENT
  | INCLUSION
  | BLOCKOPEN
  | BLOCKCLOSE
  deriving DecidableEq, Repr

/-- Argument value, per `scanArg`.  The numeric value of a `NUMBER`
argument is `Number(text)` in the source; the token text (plus the
unary-minus flag) is kept here, which determines that value. -/
inductive ArgVal where
  | path (segs : List String)
  | num (neg : Bool) (text : String)
  | boolv (b : Bool)
  | nullv
  | strv (s : String)
  deriving DecidableEq, Repr

/-- One scanned argument: `key = none` models the two-element (positional)
form `[type, value]`, `key = some k` the three-element keyword form
`[type, value, key]`. -/
structure SArg where
  val : ArgVal
  key : Option String
  deriving DecidableEq, Repr

/-- The record produced by `parseStacheTag`.  Fields that the source only
sets for some tag types (`path`, `args`, `value`) default to
`[]` / `""` in the constructions below. -/
structure RawTag where
  type : TagType
  path : List String
  args : List SArg
  value : String
  charPos : Nat
  charLength : Nat
  deriving DecidableEq, Repr

/-! ### Error messages (`prettyOffset`, `error`, `expected`) -/

/-- Source `prettyOffset`: 1-based line and 0-based offset of `pos`. -/
def prettyOffset (code : List Char) (pos : Nat) : String :=
  let upto := code.take pos
  let indexInLine := (upto.reverse.takeWhile (fun c => c != '\n')).length
  let lineNum := (upto.filter (fun c => c == '\n')).length + 1
  "line " ++ toString lineNum ++ ", offset " ++ toString indexInLine

/-- Source `error` helper: decorate a message with the position (and the
optional `options.sourceName`). -/
def errAt (inp : List Char) (sn : Option String) (pos : Nat) (msg : String) : String :=
  msg ++ " at " ++ prettyOffset inp pos ++
    (match sn with
     | some n => " in " ++ n
     | none => "")

/-- Source `expected` helper. -/
def expectedMsg (inp : List Char) (sn : Option String) (pos : Nat)
    (rem : List Char) (what : String) : String :=
  errAt inp sn pos ("Expected " ++ what ++ ", found \"" ++ String.mk (rem.take 5) ++ "\"")

/-! ### Tag-start and tag-end patterns (`starts`, `ends`)

Each start pattern is the source regex with the appended negative
lookahead `(?![{>!#/])` from `makeStacheTagStartRegex`.  The matchers
return the rest of the input after the match together with the number of
characters consumed. -/

/-- Character forbidden by the `(?![{>!#/])` lookahead. -/
def notSigil (c : Char) : Bool :=
  !(c == '{' || c == '>' || c == '!' || c == '#' || c == '/')

/-- `starts.ELSE`: `/^\{\{\s*else(?=[\s}])/i` (the appended negative
lookahead is implied by the positive one and omitted). -/
def matchElseStart (l : List Char) : Option (List Char × Nat) :=
  match l with
  | '{' :: '{' :: r =>
    let ws := r.takeWhile isJsSpace
    let r1 := r.drop ws.length
    match r1 with
    | c1 :: c2 :: c3 :: c4 :: r2 =>
      if (c1 == 'e' || c1 == 'E') && (c2 == 'l' || c2 == 'L') &&
         (c3 == 's' || c3 == 'S') && (c4 == 'e' || c4 == 'E') &&
         (match r2.head? with
          | some c => isJsSpace c || c == '}'
          | none => false)
      then some (r2, 2 + ws.length + 4)
      else none
    | _ => none
  | _ => none

/-- `starts.DOUBLE`: `/^\{\{\s*(?!\s)(?![{>!#\/])/` (both lookaheads
succeed at end of input). -/
def matchDoubleStart (l : List Char) : Option (List Char × Nat) :=
  match l with
  | '{' :: '{' :: r =>
    let ws := r.takeWhile isJsSpace
    let r1 := r.drop ws.length
    match r1.head? with
    | some c => if !isJsSpace c && notSigil c then some (r1, 2 + ws.length) else none
    | none => some (r1, 2 + ws.length)
  | _ => none

/-- `starts.TRIPLE`: `/^\{\{\{\s*(?!\s)(?![{>!#\/])/`. -/
def matchTripleStart (l : List Char) : Option (List Char × Nat) :=
  match l with
  | '{' :: '{' :: '{' :: r =>
    let ws := r.takeWhile isJsSpace
    let r1 := r.drop ws.length
    match r1.head? with
    | some c => if !isJsSpace c && notSigil c then some (r1, 3 + ws.length) else none
    | none => some (r1, 3 + ws.length)
  | _ => none

/-- `starts.COMMENT`: `/^\{\{\s*!(?![{>!#\/])/`. -/
def matchCommentStart (l : List Char) : Option (List Char × Nat) :=
  match l with
  | '{' :: '{' :: r =>
    let ws := r.takeWhile isJsSpace
    let r1 := r.drop ws.length
    match r1 with
    | '!' :: r2 =>
      if (match r2.head? with
          | some c => notSigil c
          | none => true)
      then some (r2, 2 + ws.length + 1)
      else none
    | _ => none
  | _ => none

/-- `starts.INCLUSION`: `/^\{\{\s*>\s*(?!\s)(?![{>!#\/])/`. -/
def matchInclusionStart (l : List Char) : Option (List Char × Nat) :=
  match l with
  | '{' :: '{' :: r =>
    let ws := r.takeWhile isJsSpace
    let r1 := r.drop ws.length
    match r1 with
    | '>' :: r2 =>
      let ws2 := r2.takeWhile isJsSpace
      let r3 := r2.drop ws2.length
      match r3.head? with
      | some c => if !isJsSpace c && notSigil c then some (r3, 2 + ws.length + 1 + ws2.length) else none
      | none => some (r3, 2 + ws.length + 1 + ws2.length)
    | _ => none
  | _ => none

/-- `starts.BLOCKOPEN`: `/^\{\{\s*#\s*(?!\s)(?![{>!#\/])/`. -/
def matchBlockOpenStart (l : List Char) : Option (List Char × Nat) :=
  match l with
  | '{' :: '{' :: r =>
    let ws := r.takeWhile isJsSpace
    let r1 := r.drop ws.length
    match r1 with
    | '#' :: r2 =>
      let ws2 := r2.takeWhile isJsSpace
      let r3 := r2.drop ws2.length
      match r3.head? with
      | some c => if !isJsSpace c && notSigil c then some (r3, 2 + ws.length + 1 + ws2.length) else none
      | none => some (r3, 2 + ws.length + 1 + ws2.length)
    | _ => none
  | _ => none

/-- `starts.BLOCKCLOSE`: `/^\{\{\s*\/\s*(?!\s)(?![{>!#\/])/`. -/
def matchBlockCloseStart (l : List Char) : Option (List Char × Nat) :=
  match l with
  | '{' :: '{' :: r =>
    let ws := r.takeWhile isJsSpace
    let r1 := r.drop ws.length
    match r1 with
    | '/' :: r2 =>
      let ws2 := r2.takeWhile isJsSpace
      let r3 := r2.drop ws2.length
      match r3.head? with
      | some c => if !isJsSpace c && notSigil c then some (r3, 2 + ws.length + 1 + ws2.length) else none
      | none => some (r3, 2 + ws.length + 1 + ws2.length)
    | _ => none
  | _ => none

/-- `ends.DOUBLE`: `/^\s*\}\}/`. -/
def matchEndDouble (l : List Char) : Option (List Char × Nat) :=
  let ws := l.takeWhile isJsSpace
  let r1 := l.drop ws.length
  match r1 with
  | '}' :: '}' :: r2 => some (r2, ws.length + 2)
  | _ => none

/-- `ends.TRIPLE`: `/^\s*\}\}\}/`. -/
def matchEndTriple (l : List Char) : Option (List Char × Nat) :=
  let ws := l.takeWhile isJsSpace
  let r1 := l.drop ws.length
  match r1 with
  | '}' :: '}' :: '}' :: r2 => some (r2, ws.length + 3)
  | _ => none

/-- The tag-type dispatch of `parseStacheTag` (source lines 213-221):
`ELSE` is tried first, then `DOUBLE`, `TRIPLE`, `COMMENT`, `INCLUSION`,
`BLOCKOPEN`, `BLOCKCLOSE`. -/
def stacheDispatch (rem : List Char) : Option (TagType × List Char × Nat) :=
  match matchElseStart rem with
  | some (r, k) => some (TagType.ELSE, r, k)
  | none =>
  match matchDoubleStart rem with
  | some (r, k) => some (TagType.DOUBLE, r, k)
  | none =>
  match matchTripleStart rem with
  | some (r, k) => some (TagType.TRIPLE, r, k)
  | none =>
  match matchCommentStart rem with
  | some (r, k) => some (TagType.COMMENT, r, k)
  | none =>
  match matchInclusionStart rem with
  | some (r, k) => some (TagType.INCLUSION, r, k)
  | none =>
  match matchBlockOpenStart rem with
  | some (r, k) => some (TagType.BLOCKOPEN, r, k)
  | none =>
  match matchBlockCloseStart rem with
  | some (r, k) => some (TagType.BLOCKCLOSE, r, k)
  | none => none

/-! ### Path scanner (`scanPath`) -/

/-- JavaScript `String.prototype.split('/')` over character lists
(produces empty pieces, and `[""]` on the empty string). -/
def splitOnSlash : List Char → List (List Char)
  | [] => [[]]
  | '/' :: t => [] :: splitOnSlash t
  | c :: t =>
    match splitOnSlash t with
    | h :: r => (c :: h) :: r
    | [] => [[c]]

/-- Validate the clauses of the leading dot-run and count the `..`
clauses (index 0 must be `.` or `..`, later clauses must be `..`);
errors use the position after the consumed dot-run, as in the source. -/
def validateDotClauses (inp : List Char) (sn : Option String) (rem : List Char)
    (pos : Nat) : List (List Char) → Nat → Except String Nat
  | [], _ => Except.ok 0
  | cl :: t, i =>
    if i == 0 then
      if cl == ['.'] || cl == ['.', '.'] then
        (validateDotClauses inp sn rem pos t (i + 1)).map
          (fun k => (if cl == ['.', '.'] then 1 else 0) + k)
      else Except.error (expectedMsg inp sn pos rem "`.`, `..`, `./` or `../`")
    else
      if cl == ['.', '.'] then
        (validateDotClauses inp sn rem pos t (i + 1)).map (fun k => 1 + k)
      else Except.error (expectedMsg inp sn pos rem "`..` or `../`")

/-- `scanIdentifier`: accept `IDENTIFIER` (or `KEYWORD`, merged into it);
accept `BOOLEAN`/`NULL` only when not first in the path. -/
def scanIdentifier (inp : List Char) (sn : Option String) (isFirstInPath : Bool)
    (rem : List Char) (pos : Nat) : Except String (String × List Char × Nat) :=
  match jsLex rem with
  | some (ty, text) =>
    if ty == TokType.identifier ||
       ((!isFirstInPath) && (ty == TokType.boolean || ty == TokType.nullLit)) then
      Except.ok (String.mk text, rem.drop text.length, pos + text.length)
    else Except.error (expectedMsg inp sn pos rem "IDENTIFIER")
  | none => Except.error (expectedMsg inp sn pos rem "IDENTIFIER")

/-- The segment loop of `scanPath` (source lines 116-140). -/
def scanPathLoop (inp : List Char) (sn : Option String) :
    Nat → List String → List Char → Nat → Except String (List String × List Char × Nat)
  | 0, _, _, _ => Except.error "out of fuel"
  | fuel + 1, segments, rem, pos =>
    let step : Except String (List String × List Char × Nat) :=
      match rem with
      | '[' :: rem1 =>
        let pre := rem1.takeWhile (fun c => c != ']')
        if pre.length == rem1.length then
          Except.error (errAt inp sn (pos + 1) "Unterminated path segment")
        else
          let rem2 := rem1.drop (pre.length + 1)
          let pos2 := pos + 1 + pre.length + 1
          if pre.isEmpty && segments.isEmpty then
            Except.error (errAt inp sn pos2 "Path can\x27t start with empty string")
          else Except.ok (segments ++ [String.mk pre], rem2, pos2)
      | _ =>
        (scanIdentifier inp sn segments.isEmpty rem pos).map
          (fun r =>
            let id := r.1
            if id == "this" && segments.isEmpty then (segments ++ ["."], r.2.1, r.2.2)
            else (segments ++ [id], r.2.1, r.2.2))
    match step with
    | Except.error e => Except.error e
    | Except.ok (segs, rem2, pos2) =>
      match rem2 with
      | c :: rem3 =>
        if c == '.' || c == '/' then scanPathLoop inp sn fuel segs rem3 (pos2 + 1)
        else Except.ok (segs, rem2, pos2)
      | [] => Except.ok (segs, rem2, pos2)

/-- `scanPath` (source lines 85-143). -/
def scanPath (inp : List Char) (sn : Option String) (fuel : Nat)
    (rem : List Char) (pos : Nat) : Except String (List String × List Char × Nat) :=
  let dots := rem.takeWhile (fun c => c == '.' || c == '/')
  if dots.isEmpty then scanPathLoop inp sn fuel [] rem pos
  else
    let rem1 := rem.drop dots.length
    let pos1 := pos + dots.length
    let endsWithSlash := dots.getLast? == some '/'
    let dots2 := if endsWithSlash then dots.dropLast else dots
    match validateDotClauses inp sn rem1 pos1 (splitOnSlash dots2) 0 with
    | Except.error e => Except.error e
    | Except.ok k =>
      let ancestorStr := String.mk ('.' :: List.replicate k '.')
      if endsWithSlash then scanPathLoop inp sn fuel [ancestorStr] rem1 pos1
      else Except.ok ([ancestorStr], rem1, pos1)

/-! ### Argument scanner (`scanArg`) and string decoding -/

def hexDigitVal (c : Char) : Option Nat :=
  let n := c.toNat
  if 48 ≤ n && n ≤ 57 then some (n - 48)
  else if 97 ≤ n && n ≤ 102 then some (n - 87)
  else if 65 ≤ n && n ≤ 70 then some (n - 55)
  else none

/-- Body of a JSON string literal after the opening quote: escapes per the
JSON grammar, no unescaped control characters, and the closing quote must
end the input (as `JSON.parse` requires).  Surrogate escape pairs are not
modelled (they return `none`). -/
def jsonStringBody : List Char → List Char → Option String
  | acc, '"' :: rest => if rest.isEmpty then some (String.mk acc) else none
  | acc, '\\' :: c :: rest =>
    if c == '"' then jsonStringBody (acc ++ ['"']) rest
    else if c == '\\' then jsonStringBody (acc ++ ['\\']) rest
    else if c == '/' then jsonStringBody (acc ++ ['/']) rest
    else if c == 'b' then jsonStringBody (acc ++ ['\x08']) rest
    else if c == 'f' then jsonStringBody (acc ++ ['\x0c']) rest
    else if c == 'n' then jsonStringBody (acc ++ ['\n']) rest
    else if c == 'r' then jsonStringBody (acc ++ ['\r']) rest
    else if c == 't' then jsonStringBody (acc ++ ['\t']) rest
    else if c == 'u' then
      match rest with
      | h1 :: h2 :: h3 :: h4 :: rest2 =>
        match hexDigitVal h1, hexDigitVal h2, hexDigitVal h3, hexDigitVal h4 with
        | some a, some b, some c3, some d =>
          let n := ((a * 16 + b) * 16 + c3) * 16 + d
          if n < 0xd800 || 0xe000 ≤ n then jsonStringBody (acc ++ [Char.ofNat n]) rest2
          else none
        | _, _, _, _ => none
      | _ => none
    else none
  | _, [] => none
  | acc, c :: rest => if c.toNat < 0x20 then none else jsonStringBody (acc ++ [c]) rest

/-- `JSON.parse` restricted to a single string literal. -/
def jsonParseString (l : List Char) : Option String :=
  match l with
  | '"' :: rest => jsonStringBody [] rest
  | _ => none

/-- Step one of the `STRING` decoding of `scanArg` (source lines
176-178): when the outer delimiters are single quotes, replace them with
double quotes, the inner characters unchanged. -/
def swapQuoteDelims (text : List Char) : List Char :=
  if text.head? == some '\x27' then '"' :: ((text.drop 1).dropLast ++ ['"'])
  else text

/-- Step two (source lines 179-180): replace each character of the class
`[\r\n\u000A\u000D\u2028\u2029]` with the letter `n`. -/
def newlineFamilyToN (l : List Char) : List Char :=
  l.map (fun c =>
    if c == '\r' || c == '\n' || c.toNat == 0x2028 || c.toNat == 0x2029 then 'n' else c)

/-- The `STRING` decoding steps of `scanArg` (source lines 176-181):
delimiter swap, newline-family replacement, then `JSON.parse`. -/
def decodeStacheString (text : List Char) : Option String :=
  jsonParseString (newlineFamilyToN (swapQuoteDelims text))

/-- `scanArg` (source lines 146-197).  Fuel bounds the single keyword
recursion and the path loops. -/
def scanArg (inp : List Char) (sn : Option String) :
    Nat → Bool → List Char → Nat → Except String (SArg × List Char × Nat)
  | 0, _, _, _ => Except.error "out of fuel"
  | fuel + 1, notKeyword, rem, pos =>
    match jsLex rem with
    | none => Except.error (expectedMsg inp sn pos rem "identifier, number, string, boolean, or null")
    | some (tokType, text) =>
      if (rem.head? == some '.' || rem.head? == some '[') && tokType != TokType.number then
        (scanPath inp sn (fuel + 1) rem pos).map (fun r => (SArg.mk (ArgVal.path r.1) none, r.2.1, r.2.2))
      else if tokType == TokType.punctuation && text == ['-'] then
        let rem1 := rem.drop 1
        let pos1 := pos + 1
        match jsLex rem1 with
        | some (ty2, ntext) =>
          if ty2 == TokType.number then
            Except.ok (SArg.mk (ArgVal.num true (String.mk ntext)) none,
                       rem1.drop ntext.length, pos1 + ntext.length)
          else Except.error (expectedMsg inp sn pos1 rem1 "identifier, number, string, boolean, or null")
        | none => Except.error (expectedMsg inp sn pos1 rem1 "identifier, number, string, boolean, or null")
      else if tokType == TokType.boolean then
        Except.ok (SArg.mk (ArgVal.boolv (text == "true".data)) none,
                   rem.drop text.length, pos + text.length)
      else if tokType == TokType.nullLit then
        Except.ok (SArg.mk ArgVal.nullv none, rem.drop text.length, pos + text.length)
      else if tokType == TokType.number then
        Except.ok (SArg.mk (ArgVal.num false (String.mk text)) none,
                   rem.drop text.length, pos + text.length)
      else if tokType == TokType.stringLit then
        match decodeStacheString text with
        | some v => Except.ok (SArg.mk (ArgVal.strv v) none, rem.drop text.length, pos + text.length)
        | none => Except.error "SyntaxError: unexpected token in JSON.parse"
      else if tokType == TokType.identifier then
        let after := rem.drop text.length
        if (!notKeyword) && ((after.dropWhile isJsSpace).head? == some '=') then
          let pos1 := pos + text.length
          let s1 := after.takeWhile isJsSpace
          let r2 := (after.drop s1.length).drop 1
          let s2 := r2.takeWhile isJsSpace
          let rem2 := r2.drop s2.length
          let pos2 := pos1 + s1.length + 1 + s2.length
          (scanArg inp sn fuel true rem2 pos2).map
            (fun r => (SArg.mk r.1.val (some (String.mk text)), r.2.1, r.2.2))
        else
          (scanPath inp sn (fuel + 1) rem pos).map
            (fun r => (SArg.mk (ArgVal.path r.1) none, r.2.1, r.2.2))
      else Except.error (expectedMsg inp sn pos rem "identifier, number, string, boolean, or null")

/-! ### `parseStacheTag` -/

/-- Comment body: `/^[\s\S]*?\}\}/` (everything up to the first `}}`). -/
def findCommentEnd : List Char → Option (List Char × List Char)
  | '}' :: '}' :: t => some ([], t)
  | c :: t => (findCommentEnd t).map (fun r => (c :: r.1, r.2))
  | [] => none

/-- The argument loop of `parseStacheTag` (source lines 241-257). -/
def scanTagArgsLoop (inp : List Char) (sn : Option String) (isTriple : Bool) :
    Nat → List SArg → List Char → Nat → Except String (List SArg × List Char × Nat)
  | 0, _, _, _ => Except.error "out of fuel"
  | fuel + 1, args, rem, pos =>
    let ws := rem.takeWhile isJsSpace
    let rem1 := rem.drop ws.length
    let pos1 := pos + ws.length
    let ended :=
      if isTriple then matchEndTriple rem1
      else matchEndDouble rem1
    match ended with
    | some (rem2, k) => Except.ok (args, rem2, pos1 + k)
    | none =>
      if rem1.head? == some '}' then
        Except.error (expectedMsg inp sn pos1 rem1 (if isTriple then "\x60\x7d\x7d\x7d\x60" else "\x60\x7d\x7d\x60"))
      else
        match scanArg inp sn (inp.length + 1) false rem1 pos1 with
        | Except.error e => Except.error e
        | Except.ok (arg, rem2, pos2) =>
          match rem2.head? with
          | some c =>
            if isJsSpace c || c == '}' then
              scanTagArgsLoop inp sn isTriple fuel (args ++ [arg]) rem2 pos2
            else Except.error (expectedMsg inp sn pos2 rem2 "space")
          | none => Except.error (expectedMsg inp sn pos2 rem2 "space")

/-- Count of positional (two-element) arguments, as in `checkTag`. -/
def numPosArgs (t : RawTag) : Nat := (t.args.filter (fun a => a.key.isNone)).length

/-- The error condition of `checkTag` (source lines 260-271): an
`INCLUSION` tag with more than one positional argument. -/
def checkTagError (t : RawTag) : Bool :=
  t.type == TagType.INCLUSION && decide (numPosArgs t > 1)

/-- Body of `parseStacheTag` up to (but not including) `checkTag` and the
`charPos`/`charLength` bookkeeping; returns the tag and the end position. -/
def parseStacheTagInner (inp : List Char) (sn : Option String) (pos0 : Nat) :
    Except String (RawTag × Nat) :=
  let rem0 := inp.drop pos0
  match stacheDispatch rem0 with
  | none =>
    Except.error (errAt inp sn pos0
      ("Unknown stache tag starting with \"" ++ String.mk (rem0.take 5) ++ "\""))
  | some (ty, rem1, k) =>
    let pos1 := pos0 + k
    match ty with
    | TagType.COMMENT =>
      match findCommentEnd rem1 with
      | none => Except.error (errAt inp sn pos1 "Unclosed comment")
      | some (v, _) =>
        Except.ok (RawTag.mk TagType.COMMENT [] [] (String.mk v) 0 0, pos1 + v.length + 2)
    | TagType.BLOCKCLOSE =>
      match scanPath inp sn (inp.length + 1) rem1 pos1 with
      | Except.error e => Except.error e
      | Except.ok (p, rem2, pos2) =>
        match matchEndDouble rem2 with
        | some (_, k2) => Except.ok (RawTag.mk TagType.BLOCKCLOSE p [] "" 0 0, pos2 + k2)
        | none => Except.error (expectedMsg inp sn pos2 rem2 "\x60\x7d\x7d\x60")
    | TagType.ELSE =>
      match matchEndDouble rem1 with
      | some (_, k2) => Except.ok (RawTag.mk TagType.ELSE [] [] "" 0 0, pos1 + k2)
      | none => Except.error (expectedMsg inp sn pos1 rem1 "\x60\x7d\x7d\x60")
    | _ =>
      match scanPath inp sn (inp.length + 1) rem1 pos1 with
      | Except.error e => Except.error e
      | Except.ok (p, rem2, pos2) =>
        match scanTagArgsLoop inp sn (ty == TagType.TRIPLE) (inp.length + 1) [] rem2 pos2 with
        | Except.error e => Except.error e
        | Except.ok (args, _, pos3) =>
          Except.ok (RawTag.mk ty p args "" 0 0, pos3)

/-- `Spacebars.parseStacheTag` (source lines 34-278) over a character
list: scan one tag, run `checkTag`, and record `charPos`/`charLength`. -/
def parseStacheTagCore (inp : List Char) (pos : Nat) (sn : Option String) :
    Except String RawTag :=
  match parseStacheTagInner inp sn pos with
  | Except.error e => Except.error e
  | Except.ok (t, endPos) =>
    if checkTagError t then
      Except.error (errAt inp sn endPos "Only one positional argument is allowed here")
    else
      Except.ok (RawTag.mk t.type t.path t.args t.value pos (endPos - pos))

/-- `Spacebars.parseStacheTag` on a string input. -/
def parseStacheTag (input : String) (pos : Nat) (sn : Option String) :
    Except String RawTag :=
  parseStacheTagCore input.data pos sn


/-! ### The intermediate HTML tree

The node kinds produced by the external HTML parser and consumed by the
optimizer, specializer and emitter (spec section 3; constructors used by
the source: strings, `HTML.Raw`, `HTML.CharRef`, `HTML.Comment`,
`HTML.Tag`, arrays, `HTML.Special`, `HTML.EmitCode`, plain functions,
and null).  Child and attribute collections are dedicated list types so
that all recursions below are structural.  `fnNode`/`fnVal` stand for
opaque JavaScript function values (index only; the claims under
verification exclude them or treat them opaquely). -/

mutual
inductive HNode where
  | nullNode
  | str (s : String)
  | raw (v : String)
  | charRef (html : String) (strv : String)
  | comment (text : String)
  | tag (tagName : String) (attrs : Attrs) (children : NodeList)
  | arr (ns : NodeList)
  | special (t : SpTag)
  | emitCode (code : String)
  | fnNode (idx : Nat)
inductive NodeList where
  | nil
  | cons (head : HNode) (tail : NodeList)
inductive Attrs where
  | anull
  | amk (l : AttrList)
inductive AttrList where
  | nil
  | cons (key : String) (value : AttrValue) (tail : AttrList)
inductive AttrValue where
  | str (s : String)
  | charRef (html : String) (strv : String)
  | arr (vs : AttrValueList)
  | special (t : SpTag)
  | emitCode (code : String)
  | fnVal (idx : Nat)
inductive AttrValueList where
  | nil
  | cons (head : AttrValue) (tail : AttrValueList)
inductive SpTag where
  | mk (type : TagType) (path : List String) (args : Option (List SArg))
       (content : OptNode) (elseContent : OptNode) (value : Option String)
inductive OptNode where
  | onone
  | osome (t : HNode)
end

def SpTag.type : SpTag → TagType
  | SpTag.mk ty _ _ _ _ _ => ty

def SpTag.path : SpTag → List String
  | SpTag.mk _ p _ _ _ _ => p

def SpTag.args : SpTag → Option (List SArg)
  | SpTag.mk _ _ a _ _ _ => a

def ofList : List HNode → NodeList
  | [] => NodeList.nil
  | h :: t => NodeList.cons h (ofList t)

def NodeList.toList : NodeList → List HNode
  | NodeList.nil => []
  | NodeList.cons h t => h :: NodeList.toList t

/-! ### `UI.toHTML` (render2.js lines 178-224) and its helpers -/

/-- ASCII lower-casing as used by `properCaseTagName` (`toLowerCase` on
the ASCII tag names in play). -/
def asciiLower (c : Char) : Char :=
  if 'A' ≤ c && c ≤ 'Z' then Char.ofNat (c.toNat + 32) else c

/-- `properCaseTagName`. -/
def properCaseTagName (s : String) : String := String.mk (s.data.map asciiLower)

/-- Replace every occurrence of character `c` with `rep` (JavaScript
`replace` with a global single-character class). -/
def replaceAllChar (c : Char) (rep : List Char) : List Char → List Char
  | [] => []
  | x :: t => (if x == c then rep else [x]) ++ replaceAllChar c rep t

/-- First phase of `sanitizeComment`: the global replace of the regex
"dash dash +" by the empty string, i.e. remove every maximal run of two
or more hyphens.  The flag records that we are
inside a run being removed. -/
def stripDashRuns : Bool → List Char → List Char
  | _, [] => []
  | true, '-' :: rest => stripDashRuns true rest
  | true, c :: rest => c :: stripDashRuns false rest
  | false, '-' :: '-' :: rest => stripDashRuns true rest
  | false, c :: rest => c :: stripDashRuns false rest

/-- `sanitizeComment` (render2.js lines 66-68): remove runs of two or
more hyphens, then a single trailing hyphen. -/
def sanitizeComment (s : String) : String :=
  let l := stripDashRuns false s.data
  String.mk (if l.getLast? == some '-' then l.dropLast else l)

/-- The string case of `toHTML`:
globally replace `&` by `&amp;`, then `<` by `&lt;` (render2.js line
213), as the same two sequential global replaces. -/
def escapeText (s : String) : String :=
  String.mk (replaceAllChar '<' "&lt;".data (replaceAllChar '&' "&amp;".data s.data))

/-- `attributeValuePartToQuotedStringPart` (render2.js lines 125-131):
strings get `"` then `&` replaced (in that order, as in the source);
`CharRef` contributes its `html`; anything else returns `undefined` in
JavaScript, which string concatenation renders as `"undefined"`. -/
def attrQuotedPart : AttrValue → String
  | AttrValue.str s =>
    String.mk (replaceAllChar '&' "&amp;".data (replaceAllChar '"' "&quot;".data s.data))
  | AttrValue.charRef html _ => html
  | AttrValue.arr _ => "undefined"
  | AttrValue.special _ => "undefined"
  | AttrValue.emitCode _ => "undefined"
  | AttrValue.fnVal _ => "undefined"

def attrQuotedParts : AttrValueList → String
  | AttrValueList.nil => ""
  | AttrValueList.cons h t => attrQuotedPart h ++ attrQuotedParts t

/-- `attributeValueToQuotedString` (render2.js lines 133-144). -/
def attributeValueToQuotedString (v : AttrValue) : String :=
  match v with
  | AttrValue.arr vs => "\"" ++ attrQuotedParts vs ++ "\""
  | part => "\"" ++ attrQuotedPart part ++ "\""

def attrListToHTML : AttrList → String
  | AttrList.nil => ""
  | AttrList.cons k v t => " " ++ k ++ "=" ++ attributeValueToQuotedString v ++ attrListToHTML t

/-- Attribute rendering inside a tag (render2.js lines 195-199); absent
(`null`) attributes contribute nothing. -/
def attrsToHTML : Attrs → String
  | Attrs.anull => ""
  | Attrs.amk l => attrListToHTML l

mutual
/-- `UI.toHTML` (render2.js lines 178-224), with `Raw` rendered verbatim.
The `Raw` case is modelled from the spec ("`Raw(html)` - literal
pre-rendered HTML"; the `HTML.toHTML` used by the optimizer lives in the
external HTML package).  `EmitCode` and `Special` raise in the source
("EmitCode node can only be processed by toCode" / "Unexpected item in
HTML tree"), and a function node would be called; all three are `none`
here. -/
def toHTML : HNode → Option String
  | HNode.nullNode => some ""
  | HNode.str s => some (escapeText s)
  | HNode.raw v => some v
  | HNode.charRef html _ => some html
  | HNode.comment text => some ("<!--" ++ sanitizeComment text ++ "-->")
  | HNode.emitCode _ => none
  | HNode.fnNode _ => none
  | HNode.special _ => none
  | HNode.tag name attrs cs =>
    match toHTMLList cs with
    | some inner =>
      some ("<" ++ properCaseTagName name ++ attrsToHTML attrs ++ ">" ++ inner ++
            "</" ++ properCaseTagName name ++ ">")
    | none => none
  | HNode.arr ns => toHTMLList ns
def toHTMLList : NodeList → Option String
  | NodeList.nil => some ""
  | NodeList.cons h t =>
    match toHTML h, toHTMLList t with
    | some a, some b => some (a ++ b)
    | _, _ => none
end

/-- `toHTML` over a plain list of nodes (the HTML-array case). -/
def toHTMLL : List HNode → Option String
  | [] => some ""
  | h :: t =>
    match toHTML h, toHTMLL t with
    | some a, some b => some (a ++ b)
    | _, _ => none

/-! ### The optimizer (`optimize`, source lines 432-555) -/

/-- `isPureChars` (source lines 443-445): no `&` and no `<`
(`indexOf < 0` is "does not contain"). -/
def isPureChars (s : String) : Bool :=
  !(s.data.contains '&') && !(s.data.contains '<')

/-- `pushRawHTML` (source lines 434-441): append raw HTML, coalescing
with a trailing `Raw`. -/
def pushRawHTML : List HNode → String → List HNode
  | [], h => [HNode.raw h]
  | [HNode.raw v], h => [HNode.raw (v ++ h)]
  | x :: xs, h => x :: pushRawHTML xs h

mutual
/-- `doesAttributeValueHaveSpecials` (source lines 482-496). -/
def doesAttributeValueHaveSpecials : AttrValue → Bool
  | AttrValue.special _ => true
  | AttrValue.fnVal _ => true
  | AttrValue.arr vs => attrValueListHasSpecials vs
  | _ => false
def attrValueListHasSpecials : AttrValueList → Bool
  | AttrValueList.nil => false
  | AttrValueList.cons h t => doesAttributeValueHaveSpecials h || attrValueListHasSpecials t
end

def attrListHasSpecials : AttrList → Bool
  | AttrList.nil => false
  | AttrList.cons _ v t => doesAttributeValueHaveSpecials v || attrListHasSpecials t

/-- The `mustOptimize` attribute scan of `optimizeParts`
(source lines 515-525). -/
def attrsHaveSpecials : Attrs → Bool
  | Attrs.anull => false
  | Attrs.amk l => attrListHasSpecials l

/-- One step of the prefix-stringifying loop: render the child and push
it as raw HTML (a render failure poisons the accumulator). -/
def sbStep (acc : Option (List HNode)) (c : HNode) : Option (List HNode) :=
  match acc, toHTML c with
  | some a, some h => some (pushRawHTML a h)
  | _, _ => none

/-- Stringify the plain children seen before the first special one
(the `for (var j = 0; j < i; j++) pushRawHTML(...)` loop). -/
def stringifyBefore (pre : List HNode) : Option (List HNode) :=
  pre.foldl sbStep (some [])

/-- The final `Raw`-to-string demotion of `optimizeArrayParts`
(source lines 470-478). -/
def demoteNode (n : HNode) : HNode :=
  match n with
  | HNode.raw v => if isPureChars v then HNode.str v else HNode.raw v
  | other => other

/-- The walk of `optimizeArrayParts` (source lines 447-469), expressed
over the list of children paired with their `optimizeParts` results.
`res = none` models `result === null`; `pre` is the list of children
already processed (used to stringify the prefix when the first special
child appears).  The outer `Option` models a thrown exception
(`toHTML` on an unrenderable node). -/
def assembleGo : List (HNode × Option HNode) → Option (List HNode) → List HNode →
    Option (Option (List HNode))
  | [], res, _ => some res
  | (c, r) :: rest, res, pre =>
    match r with
    | some part =>
      match (match res with
             | some a => some a
             | none => stringifyBefore pre) with
      | none => none
      | some base => assembleGo rest (some (base ++ [part])) (pre ++ [c])
    | none =>
      match res with
      | none => assembleGo rest none (pre ++ [c])
      | some a =>
        match toHTML c with
        | none => none
        | some h => assembleGo rest (some (pushRawHTML a h)) (pre ++ [c])

/-- `optimizeArrayParts` (source lines 447-480) given the per-child
`optimizeParts` results: run the walk, then demote pure-character `Raw`s. -/
def assembleParts (pairs : List (HNode × Option HNode)) (force : Bool) :
    Option (Option (List HNode)) :=
  match assembleGo pairs (if force then some [] else none) [] with
  | none => none
  | some none => some none
  | some (some l) => some (some (l.map demoteNode))

mutual
/-- `optimizeParts` (source lines 498-542); `optListParts` applies it to
each child, pairing children with their results (the source interleaves
the per-child calls with the walk of `optimizeArrayParts`; both are pure,
so the result is the same). -/
def optimizeParts : HNode → Option (Option HNode)
  | HNode.nullNode => some none
  | HNode.str _ => some none
  | HNode.raw _ => some none
  | HNode.charRef _ _ => some none
  | HNode.comment _ => some none
  | HNode.tag name attrs cs =>
    if name == "TEXTAREA" then some (some (HNode.tag name attrs cs))
    else
      match optListParts cs with
      | none => none
      | some pairs =>
        match assembleParts pairs (attrsHaveSpecials attrs) with
        | none => none
        | some none => some none
        | some (some newChildren) =>
          some (some (HNode.tag name attrs (ofList newChildren)))
  | HNode.arr ns =>
    match optListParts ns with
    | none => none
    | some pairs =>
      match assembleParts pairs false with
      | none => none
      | some none => some none
      | some (some parts) => some (some (HNode.arr (ofList parts)))
  | HNode.special t => some (some (HNode.special t))
  | HNode.emitCode c => some (some (HNode.emitCode c))
  | HNode.fnNode i => some (some (HNode.fnNode i))
def optListParts : NodeList → Option (List (HNode × Option HNode))
  | NodeList.nil => some []
  | NodeList.cons h t =>
    match optimizeParts h, optListParts t with
    | some r, some rs => some ((h, r) :: rs)
    | _, _ => none
end

/-- `optimize` (source lines 544-554). -/
def optimize (t : HNode) : Option HNode :=
  match optimizeParts t with
  | none => none
  | some (some t2) => some t2
  | some none =>
    match toHTML t with
    | none => none
    | some h => some (if isPureChars h then HNode.str h else HNode.raw h)

/-! ### Predicates on trees (for the claims) -/

mutual
/-- No `Special` node and no function value anywhere in the tree
(including attribute values); `EmitCode` is allowed. -/
def specialFree : HNode → Bool
  | HNode.special _ => false
  | HNode.fnNode _ => false
  | HNode.tag _ attrs cs => attrsSpecialFree attrs && nlSpecialFree cs
  | HNode.arr ns => nlSpecialFree ns
  | _ => true
def nlSpecialFree : NodeList → Bool
  | NodeList.nil => true
  | NodeList.cons h t => specialFree h && nlSpecialFree t
def attrsSpecialFree : Attrs → Bool
  | Attrs.anull => true
  | Attrs.amk l => alSpecialFree l
def alSpecialFree : AttrList → Bool
  | AttrList.nil => true
  | AttrList.cons _ v t => avSpecialFree v && alSpecialFree t
def avSpecialFree : AttrValue → Bool
  | AttrValue.special _ => false
  | AttrValue.fnVal _ => false
  | AttrValue.arr vs => avlSpecialFree vs
  | _ => true
def avlSpecialFree : AttrValueList → Bool
  | AttrValueList.nil => true
  | AttrValueList.cons h t => avSpecialFree h && avlSpecialFree t
end

mutual
/-- No `Special`, function, or `EmitCode` node in any node position
(attribute values are irrelevant here: attribute rendering is total). -/
def cleanNode : HNode → Bool
  | HNode.special _ => false
  | HNode.fnNode _ => false
  | HNode.emitCode _ => false
  | HNode.tag _ _ cs => cleanNL cs
  | HNode.arr ns => cleanNL ns
  | _ => true
def cleanNL : NodeList → Bool
  | NodeList.nil => true
  | NodeList.cons h t => cleanNode h && cleanNL t
end


/-! ### `Spacebars.parse` (source lines 338-430)

The driver `HTML.parseFragment` is external to this repository; it is
modelled from the spec here, restricted to character data and template
tags: the scanner walks the input, consults `getSpecialTag` at every
position, accumulates other characters as plain text, and stops at end of
input or (inside a block) where the `shouldStop` predicate
`isAtBlockCloseOrElse` fires.  HTML element parsing and the RCDATA text
mode are not modelled (the claims under test use inputs without markup).
`getSpecialTag`, `isAtBlockCloseOrElse` and the block open/close logic
are translated from the source. -/

/-- `path.flatten(',')`. -/
def joinComma : List String → String
  | [] => ""
  | [x] => x
  | x :: t => x ++ "," ++ joinComma t

/-- JavaScript `String(+s)` for the `', found ' + + blockName2` slip in
the block-mismatch error (source line 403-404): string-to-number
coercion then back to string.  Modelled for the values that can occur as
joined paths: whitespace-trimmed empty gives "0", a nonnegative decimal
integer gives its canonical form, anything else gives "NaN" (fractional
forms are not needed and map to "NaN" here only if non-digits appear). -/
def jsUnaryPlusToString (s : String) : String :=
  let t := s.data.dropWhile isJsSpace
  let t2 := (t.reverse.dropWhile isJsSpace).reverse
  if t2.isEmpty then "0"
  else if t2.all Char.isDigit then
    toString (t2.foldl (fun n c => n * 10 + (c.toNat - 48)) 0)
  else "NaN"

/-- The JavaScript name of a tag type (used in error concatenation). -/
def tagTypeName : TagType → String
  | TagType.ELSE => "ELSE"
  | TagType.DOUBLE => "DOUBLE"
  | TagType.TRIPLE => "TRIPLE"
  | TagType.COMMENT => "COMMENT"
  | TagType.INCLUSION => "INCLUSION"
  | TagType.BLOCKOPEN => "BLOCKOPEN"
  | TagType.BLOCKCLOSE => "BLOCKCLOSE"

/-- The closing-tag validation of the `BLOCKOPEN` branch of
`getSpecialTag` (source lines 400-409): the tag that follows the block
contents (after an optional else part) must be a `BLOCKCLOSE` whose
comma-joined path equals the opener\x27s, else the parse is fatal.  On
success, returns the closer\x27s length to advance by. -/
def blockCloseCheck (blockName : String) (stache2 : RawTag) : Except String Nat :=
  if stache2.type == TagType.BLOCKCLOSE then
    let blockName2 := joinComma stache2.path
    if blockName != blockName2 then
      Except.error ("Expected tag to close " ++ blockName ++ ", found " ++
                    jsUnaryPlusToString blockName2)
    else Except.ok stache2.charLength
  else
    Except.error ("Expected tag to close " ++ blockName ++ ", found " ++
                  tagTypeName stache2.type)

/-- Does the input at `pos` start with two opening braces. -/
def startsWithLBraces2 (inp : List Char) (pos : Nat) : Bool :=
  match inp.drop pos with
  | '{' :: '{' :: _ => true
  | _ => false

/-- JavaScript word character (for the word boundary after `else`). -/
def isWordChar (c : Char) : Bool := c.isAlpha || c.isDigit || c == '_'

/-- The shortcut regex of `isAtBlockCloseOrElse`:
`^\{\{\s*(\/|else\b)` (case sensitive, unlike `starts.ELSE`). -/
def matchCloseOrElseShortcut (l : List Char) : Bool :=
  match l with
  | '{' :: '{' :: r =>
    let r1 := r.dropWhile isJsSpace
    match r1 with
    | '/' :: _ => true
    | 'e' :: 'l' :: 's' :: 'e' :: r2 =>
      (match r2.head? with
       | some c => !isWordChar c
       | none => true)
    | _ => false
  | _ => false

/-- `isAtBlockCloseOrElse` (source lines 415-425).  The inner
`parseStacheTag` call can throw, which propagates. -/
def isAtBlockCloseOrElse (inp : List Char) (pos : Nat) : Except String Bool :=
  let rest := inp.drop pos
  match rest with
  | '{' :: '{' :: _ =>
    if matchCloseOrElseShortcut rest then
      match parseStacheTagCore inp pos none with
      | Except.error e => Except.error e
      | Except.ok t => Except.ok (t.type == TagType.BLOCKCLOSE || t.type == TagType.ELSE)
    else Except.ok false
  | _ => Except.ok false

/-- Models `delete stache.args` for an empty argument list
(source lines 356-357). -/
def argsOpt (t : RawTag) : Option (List SArg) :=
  if t.args.isEmpty then none else some t.args

/-- Conversion of a scanner tag to a tree-resident `Special` payload
(no block contents). -/
def rawToSpTag (t : RawTag) : SpTag :=
  SpTag.mk t.type t.path (argsOpt t) OptNode.onone OptNode.onone none

mutual
/-- `getSpecialTag` (source lines 345-413), fuelled.  The result is
`(none, pos)` when the input does not start with two braces, and
otherwise `(some payload, newPos)` where `payload = none` for a consumed
comment.  `ELSE` and `BLOCKCLOSE` at this point are fatal; `BLOCKOPEN`
recursively parses its contents, the optional else part, and the
matching close tag. -/
def getSpecialTag (inp : List Char) : Nat → Nat → Except String (Option (Option SpTag) × Nat)
  | 0, _ => Except.error "out of fuel"
  | fuel + 1, pos =>
    if !(startsWithLBraces2 inp pos) then Except.ok (none, pos)
    else
      match parseStacheTagCore inp pos none with
      | Except.error e => Except.error e
      | Except.ok stache =>
        if stache.type == TagType.ELSE then
          Except.error "Found unexpected \x7b\x7belse\x7d\x7d\x7d"
        else if stache.type == TagType.BLOCKCLOSE then
          Except.error "Found unexpected closing stache tag"
        else
          let pos1 := pos + stache.charLength
          if stache.type == TagType.COMMENT then Except.ok (some none, pos1)
          else if stache.type == TagType.BLOCKOPEN then
            let blockName := joinComma stache.path
            match parseFragmentM inp fuel pos1 true with
            | Except.error e => Except.error e
            | Except.ok (content, pos2) =>
              if !(startsWithLBraces2 inp pos2) then
                Except.error ("Expected \x7b\x7belse\x7d\x7d or block close for " ++ blockName)
              else
                match parseStacheTagCore inp pos2 none with
                | Except.error e => Except.error e
                | Except.ok st2 =>
                  if st2.type == TagType.ELSE then
                    let pos3 := pos2 + st2.charLength
                    match parseFragmentM inp fuel pos3 true with
                    | Except.error e => Except.error e
                    | Except.ok (elseContent, pos4) =>
                      if !(startsWithLBraces2 inp pos4) then
                        Except.error ("Expected block close for " ++ blockName)
                      else
                        match parseStacheTagCore inp pos4 none with
                        | Except.error e => Except.error e
                        | Except.ok st3 =>
                          match blockCloseCheck blockName st3 with
                          | Except.error e => Except.error e
                          | Except.ok adv =>
                            Except.ok (some (some (SpTag.mk TagType.BLOCKOPEN stache.path
                              (argsOpt stache)
                              (OptNode.osome (HNode.arr (ofList content)))
                              (OptNode.osome (HNode.arr (ofList elseContent))) none)),
                              pos4 + adv)
                  else
                    match blockCloseCheck blockName st2 with
                    | Except.error e => Except.error e
                    | Except.ok adv =>
                      Except.ok (some (some (SpTag.mk TagType.BLOCKOPEN stache.path
                        (argsOpt stache)
                        (OptNode.osome (HNode.arr (ofList content)))
                        OptNode.onone none)), pos2 + adv)
          else Except.ok (some (some (rawToSpTag stache)), pos1)

/-- Modelled from the spec: the fragment-parsing loop of the external
`HTML.parseFragment`, restricted to character data and template tags.
Consecutive plain characters coalesce into one string node. -/
def parseFragmentM (inp : List Char) : Nat → Nat → Bool → Except String (List HNode × Nat)
  | 0, _, _ => Except.error "out of fuel"
  | fuel + 1, pos, stopFlag =>
    let atStop : Except String Bool :=
      if stopFlag then isAtBlockCloseOrElse inp pos else Except.ok false
    match atStop with
    | Except.error e => Except.error e
    | Except.ok true => Except.ok ([], pos)
    | Except.ok false =>
      if inp.length ≤ pos then Except.ok ([], pos)
      else
        match getSpecialTag inp fuel pos with
        | Except.error e => Except.error e
        | Except.ok (none, _) =>
          match inp.drop pos with
          | c :: _ =>
            (match parseFragmentM inp fuel (pos + 1) stopFlag with
             | Except.error e => Except.error e
             | Except.ok (ns, pos2) =>
               match ns with
               | HNode.str s :: t2 => Except.ok (HNode.str (String.mk (c :: s.data)) :: t2, pos2)
               | _ => Except.ok (HNode.str (String.mk [c]) :: ns, pos2))
          | [] => Except.ok ([], pos)
        | Except.ok (some none, pos1) => parseFragmentM inp fuel pos1 stopFlag
        | Except.ok (some (some sp), pos1) =>
          match parseFragmentM inp fuel pos1 stopFlag with
          | Except.error e => Except.error e
          | Except.ok (ns, pos2) => Except.ok (HNode.special sp :: ns, pos2)
end

/-- `Spacebars.parse` (source lines 338-430): parse the whole input as a
fragment with no stop condition; the resulting node list is the tree. -/
def Spacebars.parse (input : String) : Except String HNode :=
  match parseFragmentM input.data (4 * input.length + 16) 0 false with
  | Except.error e => Except.error e
  | Except.ok (ns, _) => Except.ok (HNode.arr (ofList ns))


/-! ### Code emission helpers (`toJSLiteral`, `makeObjectLiteral`,
`codeGenPath`, `codeGenArgs`, `codeGenMustache`) -/

def hexDigitChar (n : Nat) : Char :=
  if n < 10 then Char.ofNat ('0'.toNat + n) else Char.ofNat ('a'.toNat + (n - 10))

def hex4 (n : Nat) : List Char :=
  [hexDigitChar (n / 4096 % 16), hexDigitChar (n / 256 % 16),
   hexDigitChar (n / 16 % 16), hexDigitChar (n % 16)]

/-- One character of `JSON.stringify` string escaping, plus the extra
` `/` ` escaping of `toJSLiteral` (render2.js lines 226-233).
Lone surrogates cannot occur in a Lean `Char`. -/
def jsonEscapeChar (c : Char) : List Char :=
  if c == '"' then ['\\', '"']
  else if c == '\\' then ['\\', '\\']
  else if c == '\x08' then ['\\', 'b']
  else if c == '\t' then ['\\', 't']
  else if c == '\n' then ['\\', 'n']
  else if c == '\x0c' then ['\\', 'f']
  else if c == '\r' then ['\\', 'r']
  else if c.toNat < 0x20 then '\\' :: 'u' :: hex4 c.toNat
  else if c.toNat == 0x2028 || c.toNat == 0x2029 then '\\' :: 'u' :: hex4 c.toNat
  else [c]

def jsonEscapeChars : List Char → List Char
  | [] => []
  | c :: t => jsonEscapeChar c ++ jsonEscapeChars t

/-- `toJSLiteral` (render2.js lines 226-233) on a string value. -/
def toJSLiteralStr (s : String) : String :=
  String.mk ('"' :: jsonEscapeChars s.data ++ ['"'])

/-- `toJSLiteral` on a scanned argument value.  For numbers, the decimal
token text (with the unary-minus sign) is the serialization; for the
token forms the scanner produces this coincides with
`JSON.stringify(Number(text))`. -/
def toJSLiteralArg : ArgVal → String
  | ArgVal.strv s => toJSLiteralStr s
  | ArgVal.num neg text => (if neg then "-" else "") ++ text
  | ArgVal.boolv b => if b then "true" else "false"
  | ArgVal.nullv => "null"
  | ArgVal.path _ => ""

def joinCommaSpace : List String → String
  | [] => ""
  | [x] => x
  | x :: t => x ++ ", " ++ joinCommaSpace t

/-- Modelled from the spec: `toObjectLiteralKey` is referenced by
`makeObjectLiteral` but defined outside this repository; identifier-shaped
keys appear bare, any other key as a string literal (the convention the
spec describes for emitted object literals). -/
def toObjectLiteralKey (k : String) : String :=
  if (match k.data with
      | [] => false
      | c :: t => isIdStart c && t.all isIdChar)
  then k else toJSLiteralStr k

/-- `makeObjectLiteral` (source lines 280-285) over an ordered key-value
list (JavaScript object insertion order). -/
def makeObjectLiteral (l : List (String × String)) : String :=
  "\x7b" ++ joinCommaSpace (l.map (fun kv => toObjectLiteralKey kv.1 ++ ": " ++ kv.2)) ++ "\x7d"

/-- JavaScript property assignment on an ordered key-value list: an
existing key is overwritten in place, a new key is appended. -/
def objSet (l : List (String × String)) (k : String) (v : String) : List (String × String) :=
  if l.any (fun kv => kv.1 == k) then
    l.map (fun kv => if kv.1 == k then (k, v) else kv)
  else l ++ [(k, v)]

/-- `codeGenPath` (source lines 984-993).  The scanner never produces an
empty path; that case mirrors the JavaScript `undefined` indexing. -/
def codeGenPath (path : List String) : String :=
  match path with
  | [] => "self.lookup(undefined)"
  | p0 :: rest =>
    let code := "self.lookup(" ++ toJSLiteralStr p0 ++ ")"
    if rest.isEmpty then code
    else "Spacebars.dot(" ++ code ++ ", " ++ joinCommaSpace (rest.map toJSLiteralStr) ++ ")"

/-- `codeGenArgs` (source lines 997-1039): `none` when the tag has no
argument list (or an empty one, which iterates zero times); otherwise the
positional codes followed by a trailing `Spacebars.kw({...})` when
keyword arguments are present. -/
def codeGenArgs (tagArgs : Option (List SArg)) : Option (List String) :=
  match tagArgs with
  | none => none
  | some args =>
    let folded := args.foldl
      (fun (acc : Option (List (String × String)) × Option (List String)) arg =>
        let argCode :=
          match arg.val with
          | ArgVal.path p => codeGenPath p
          | v => toJSLiteralArg v
        match arg.key with
        | some k => (some (objSet (acc.1.getD []) k argCode), acc.2)
        | none => (acc.1, some ((acc.2.getD []) ++ [argCode])))
      (none, none)
    match folded.1 with
    | some kl => some ((folded.2.getD []) ++ ["Spacebars.kw(" ++ makeObjectLiteral kl ++ ")"])
    | none => folded.2

/-- `codeGenMustache` (source lines 910-917). -/
def codeGenMustache (tag : SpTag) (mustacheType : String) : String :=
  let nameCode := codeGenPath tag.path
  let argCode := codeGenArgs tag.args
  "Spacebars." ++ mustacheType ++ "(" ++ nameCode ++
    (match argCode with
     | some l => ", " ++ joinCommaSpace l
     | none => "") ++ ")"

/-- `builtInComponents` (source lines 557-564). -/
def builtInComponents (name : String) : Option String :=
  if name == "content" then some "__content"
  else if name == "elseContent" then some "__elseContent"
  else if name == "if" then some "UI.If"
  else if name == "unless" then some "UI.Unless"
  else if name == "with" then some "UI.With"
  else if name == "each" then some "UI.Each"
  else none

/-! ### The code emitter (`HTML.toJS`, modelled by `toCode` of
render2.js lines 235-282; the `Raw` case is modelled from the spec since
`HTML.toJS` lives in the external HTML package) -/

mutual
def toCode : HNode → Except String String
  | HNode.nullNode => Except.ok ""
  | HNode.str s => Except.ok (toJSLiteralStr s)
  | HNode.raw v => Except.ok ("HTML.Raw(" ++ toJSLiteralStr v ++ ")")
  | HNode.charRef html strv =>
    Except.ok ("UI.Tag.CharRef(\x7bhtml: " ++ toJSLiteralStr html ++
               ", str: " ++ toJSLiteralStr strv ++ "\x7d)")
  | HNode.comment text => Except.ok ("UI.Tag.Comment(" ++ toJSLiteralStr text ++ ")")
  | HNode.emitCode code => Except.ok code
  | HNode.fnNode _ =>
    Except.error "Can\x27t convert function object to code string.  Use EmitCode instead."
  | HNode.special _ => Except.error "Unexpected item in HTML tree"
  | HNode.tag name attrs cs =>
    match toCodeAttrs attrs, toCodeList cs with
    | Except.ok attrStr, Except.ok childStrs =>
      Except.ok ("UI.Tag." ++ name ++ "(" ++
        joinCommaSpace ((match attrStr with
                         | some a => [a]
                         | none => []) ++ childStrs) ++ ")")
    | Except.error e, _ => Except.error e
    | _, Except.error e => Except.error e
  | HNode.arr ns =>
    match toCodeList ns with
    | Except.ok l => Except.ok ("[" ++ joinCommaSpace l ++ "]")
    | Except.error e => Except.error e
def toCodeList : NodeList → Except String (List String)
  | NodeList.nil => Except.ok []
  | NodeList.cons h t =>
    match toCode h, toCodeList t with
    | Except.ok a, Except.ok b => Except.ok (a :: b)
    | Except.error e, _ => Except.error e
    | _, Except.error e => Except.error e
def toCodeAttrs : Attrs → Except String (Option String)
  | Attrs.anull => Except.ok none
  | Attrs.amk l =>
    match toCodeAttrList l with
    | Except.ok kvs => Except.ok (some ("\x7b" ++ joinCommaSpace kvs ++ "\x7d"))
    | Except.error e => Except.error e
def toCodeAttrList : AttrList → Except String (List String)
  | AttrList.nil => Except.ok []
  | AttrList.cons k v t =>
    match attributeValueToCode v, toCodeAttrList t with
    | Except.ok vc, Except.ok rest =>
      Except.ok (((if !k.data.isEmpty && k.data.all Char.isAlpha then k
                   else toJSLiteralStr k) ++ ": " ++ vc) :: rest)
    | Except.error e, _ => Except.error e
    | _, Except.error e => Except.error e
def attributeValueToCode : AttrValue → Except String String
  | AttrValue.arr vs =>
    match attrValueListToCode vs with
    | Except.ok l => Except.ok ("[" ++ joinCommaSpace l ++ "]")
    | Except.error e => Except.error e
  | AttrValue.str sv => Except.ok (toJSLiteralStr sv)
  | AttrValue.charRef html strv =>
    Except.ok ("UI.Tag.CharRef(\x7bhtml: " ++ toJSLiteralStr html ++
               ", str: " ++ toJSLiteralStr strv ++ "\x7d)")
  | AttrValue.emitCode code => Except.ok code
  | AttrValue.special _ => Except.error "Unexpected item in HTML tree"
  | AttrValue.fnVal _ =>
    Except.error "Can\x27t convert function object to code string.  Use EmitCode instead."
def attrValueListToCode : AttrValueList → Except String (List String)
  | AttrValueList.nil => Except.ok []
  | AttrValueList.cons h t =>
    match attributeValueToCode h, attrValueListToCode t with
    | Except.ok a, Except.ok b => Except.ok (a :: b)
    | Except.error e, _ => Except.error e
    | _, Except.error e => Except.error e
end

/-! ### Attribute specialization (`Spacebars._handleSpecialAttributes`,
source lines 763-815) -/

mutual
/-- `convertSpecialToEmitCode` plus the `foundSpecials` flag. -/
def convertSpecialAV : AttrValue → (AttrValue × Bool)
  | AttrValue.special t =>
    (AttrValue.emitCode ("function () \x7b return " ++ codeGenMustache t "mustache" ++ "; \x7d"),
     true)
  | AttrValue.arr vs =>
    let r := convertSpecialAVL vs
    (AttrValue.arr r.1, r.2)
  | v => (v, false)
def convertSpecialAVL : AttrValueList → (AttrValueList × Bool)
  | AttrValueList.nil => (AttrValueList.nil, false)
  | AttrValueList.cons h t =>
    let a := convertSpecialAV h
    let b := convertSpecialAVL t
    (AttrValueList.cons a.1 b.1, a.2 || b.2)
end

def attrListFind : AttrList → String → Option AttrValue
  | AttrList.nil, _ => none
  | AttrList.cons k v t, key => if k == key then some v else attrListFind t key

def attrListAppend : AttrList → AttrList → AttrList
  | AttrList.nil, l => l
  | AttrList.cons k v t, l => AttrList.cons k v (attrListAppend t l)

/-- Convert the values of all keys not starting with `$`, keeping order;
the flag is `foundSpecials`. -/
def convertNonDollar : AttrList → (AttrList × Bool)
  | AttrList.nil => (AttrList.nil, false)
  | AttrList.cons k v t =>
    let rest := convertNonDollar t
    if k.data.head? == some '$' then rest
    else
      let cv := convertSpecialAV v
      (AttrList.cons k cv.1 rest.1, cv.2 || rest.2)

/-- The `$dynamic` construction: each `Special` in `$specials` becomes an
`EmitCode` thunk around an `attrMustache` call.  A non-`Special` entry
would crash the source (`special.value` of a non-Special); such entries
do not occur and pass through unchanged here. -/
def dynamicsToEmitCodes : AttrValueList → AttrValueList
  | AttrValueList.nil => AttrValueList.nil
  | AttrValueList.cons (AttrValue.special t) rest =>
    AttrValueList.cons
      (AttrValue.emitCode ("function () \x7b return " ++ codeGenMustache t "attrMustache" ++ "; \x7d"))
      (dynamicsToEmitCodes rest)
  | AttrValueList.cons v rest => AttrValueList.cons v (dynamicsToEmitCodes rest)

/-- `Spacebars._handleSpecialAttributes` (source lines 763-815): identity
when there are no `Special` attribute values and no non-empty `$specials`
key; otherwise the non-`$` keys with `Special`s converted to `EmitCode`,
plus a `$dynamic` key when `$specials` was present. -/
def handleSpecialAttributes (oldAttrs : Attrs) : Attrs :=
  match oldAttrs with
  | Attrs.anull => Attrs.anull
  | Attrs.amk l =>
    let dynamics : Option AttrValueList :=
      match attrListFind l "$specials" with
      | some (AttrValue.arr vs) =>
        (match vs with
         | AttrValueList.nil => none
         | _ => some vs)
      | _ => none
    let conv := convertNonDollar l
    match dynamics with
    | none => if conv.2 then Attrs.amk conv.1 else oldAttrs
    | some ds =>
      Attrs.amk (attrListAppend conv.1
        (AttrList.cons "$dynamic" (AttrValue.arr (dynamicsToEmitCodes ds)) AttrList.nil))

/-! ### The specializer (`replaceSpecials`, source lines 566-609) and
inclusion arguments (`codeGenInclusionArgs`, source lines 611-690) -/

/-- The argument-assembly part of `codeGenInclusionArgs`
(source lines 611-690) given the emitted `__content` / `__elseContent`
sources: keyword arguments become object entries, positional arguments
are collected into the `data` entry (wrapped in a `Spacebars.call` thunk
when there are two or more, and multi-segment paths in a thunk unless
the multi-positional form is in play). -/
def inclusionArgsFrom (args : Option (List SArg))
    (contentCode elseCode : Option String) : List String :=
  let base0 : List (String × String) :=
    match contentCode with
    | some cs => [("__content", cs)]
    | none => []
  let base :=
    match elseCode with
    | some es => objSet base0 "__elseContent" es
    | none => base0
  let argList := args.getD []
  let numPos := (argList.filter (fun a => a.key.isNone)).length
  let folded := argList.foldl
    (fun (acc : List (String × String) × List String) arg =>
      let argCode :=
        match arg.val with
        | ArgVal.path p =>
          let c := codeGenPath p
          if !(p.length == 1 || numPos > 1) then
            "function () \x7b return Spacebars.call(" ++ c ++ "); \x7d"
          else c
        | v => toJSLiteralArg v
      match arg.key with
      | some k => (objSet acc.1 k argCode, acc.2)
      | none => (acc.1, acc.2 ++ [argCode]))
    (base, [])
  let withData :=
    match folded.2 with
    | [] => folded.1
    | [p] => objSet folded.1 "data" p
    | ps => objSet folded.1 "data"
        ("function () \x7b return Spacebars.call(" ++ joinCommaSpace ps ++ "); \x7d")
  if withData.isEmpty then []
  else [makeObjectLiteral withData]


mutual
def replaceSpecials : HNode → Except String HNode
  | HNode.tag name attrs cs =>
    match replaceSpecialsList cs with
    | Except.error e => Except.error e
    | Except.ok newChildren =>
      Except.ok (HNode.tag name (handleSpecialAttributes attrs) newChildren)
  | HNode.arr ns =>
    match replaceSpecialsList ns with
    | Except.error e => Except.error e
    | Except.ok l => Except.ok (HNode.arr l)
  | HNode.special t => replaceSpecialTag t
  | other => Except.ok other
def replaceSpecialsList : NodeList → Except String NodeList
  | NodeList.nil => Except.ok NodeList.nil
  | NodeList.cons h t =>
    match replaceSpecials h, replaceSpecialsList t with
    | Except.ok a, Except.ok b => Except.ok (NodeList.cons a b)
    | Except.error e, _ => Except.error e
    | _, Except.error e => Except.error e
/-- The `Special` branch of `replaceSpecials` (source lines 575-608). -/
def replaceSpecialTag : SpTag → Except String HNode
  | SpTag.mk ty path args content elseContent value =>
    if ty == TagType.DOUBLE then
      Except.ok (HNode.emitCode ("function () \x7b return " ++
        codeGenMustache (SpTag.mk ty path args content elseContent value) "mustache" ++ "; \x7d"))
    else if ty == TagType.TRIPLE then
      Except.ok (HNode.emitCode ("function () \x7b return Spacebars.makeRaw(" ++
        codeGenMustache (SpTag.mk ty path args content elseContent value) "mustache" ++ "); \x7d"))
    else if ty == TagType.INCLUSION || ty == TagType.BLOCKOPEN then
      let compCode0 := codeGenPath path
      let compCode :=
        match path with
        | [p0] =>
          (match builtInComponents p0 with
           | some b => b
           | none => "(Template[" ++ toJSLiteralStr p0 ++ "] || " ++ compCode0 ++ ")")
        | _ => compCode0
      match blockContentCode content with
      | Except.error e => Except.error e
      | Except.ok cCode =>
        match blockContentCode elseContent with
        | Except.error e => Except.error e
        | Except.ok eCode =>
          let includeArgs := inclusionArgsFrom args cCode eCode
          Except.ok (HNode.emitCode ("function () \x7b return Spacebars.include(" ++ compCode ++
            (if includeArgs.isEmpty then "" else ", " ++ joinCommaSpace includeArgs) ++ "); \x7d"))
    else Except.error ("Unexpected template tag type: " ++ tagTypeName ty)
/-- The `'content' in tag` / `'elseContent' in tag` arms of
`codeGenInclusionArgs` (source lines 615-624): specialize and emit the
stored fragment, producing the `UI.block(...)` source.  The recursive
`Spacebars.codeGen(tag.content)` call (with no options) is unfolded
here: specialize the subtree, emit it, and wrap it in the non-template
function wrapper (the `beautify` step is the identity in this model, see
`beautify` below). -/
def blockContentCode : OptNode → Except String (Option String)
  | OptNode.onone => Except.ok none
  | OptNode.osome c =>
    match replaceSpecials c with
    | Except.error e => Except.error e
    | Except.ok rc =>
      match toCode rc with
      | Except.error e => Except.error e
      | Except.ok code =>
        Except.ok (some
          ("UI.block((function () \x7b var self = this; return " ++ code ++ "; \x7d))"))
end



/-- `beautify` (source lines 955-973): without the `minifiers` package
(outside this model) it returns the code unchanged. -/
def beautify (code : String) : String := code

/-- `Spacebars.codeGen` (source lines 924-953).  In the source,
`var isTemplate` is declared only after the `if (isTemplate)` guard that
calls `optimize`; by JavaScript var hoisting that guard reads `undefined`
and the optimizer is never invoked, whatever the options say.  The later
wrapper choice uses the assigned value.  The guard value is modelled
explicitly. -/
def Spacebars.codeGen (parseTree : HNode) (isTemplateOpt : Bool) : Except String String :=
  let isTemplateAtOptimizeGuard := false
  match (if isTemplateAtOptimizeGuard then optimize parseTree else some parseTree) with
  | none => Except.error "optimize failed"
  | some tree0 =>
    match replaceSpecials tree0 with
    | Except.error e => Except.error e
    | Except.ok tree =>
      match toCode tree with
      | Except.error e => Except.error e
      | Except.ok body =>
        Except.ok (beautify ("(function () \x7b var self = this; " ++
          (if isTemplateOpt then
            "var __content = self.__content, __elseContent = self.__elseContent; "
           else "") ++
          "return " ++ body ++ "; \x7d)"))

/-- `Spacebars.codeGen` with the optimizer pass removed outright (no
guard at all): used to state that the source function never optimizes. -/
def codeGenNoOptimize (parseTree : HNode) (isTemplateOpt : Bool) : Except String String :=
  match replaceSpecials parseTree with
  | Except.error e => Except.error e
  | Except.ok tree =>
    match toCode tree with
    | Except.error e => Except.error e
    | Except.ok body =>
      Except.ok (beautify ("(function () \x7b var self = this; " ++
        (if isTemplateOpt then
          "var __content = self.__content, __elseContent = self.__elseContent; "
         else "") ++
        "return " ++ body ++ "; \x7d)"))

/-- `Spacebars.codeGen` as the spec describes it: with
`options.isTemplate` true, the optimizer runs on the parse tree before
the specialization pass.  This is the intended behavior the hoisting slip
defeats; it is stated here for comparison. -/
def codeGenAsSpecified (parseTree : HNode) (isTemplateOpt : Bool) : Except String String :=
  match (if isTemplateOpt then optimize parseTree else some parseTree) with
  | none => Except.error "optimize failed"
  | some tree0 =>
    match replaceSpecials tree0 with
    | Except.error e => Except.error e
    | Except.ok tree =>
      match toCode tree with
      | Except.error e => Except.error e
      | Except.ok body =>
        Except.ok (beautify ("(function () \x7b var self = this; " ++
          (if isTemplateOpt then
            "var __content = self.__content, __elseContent = self.__elseContent; "
           else "") ++
          "return " ++ body ++ "; \x7d)"))

/-- `Spacebars.compile` (source lines 919-922). -/
def Spacebars.compile (input : String) (isTemplateOpt : Bool) : Except String String :=
  match Spacebars.parse input with
  | Except.error e => Except.error e
  | Except.ok tree => Spacebars.codeGen tree isTemplateOpt


/-! ### Runtime values: `Spacebars.call`, `Spacebars.kw`,
`Spacebars.mustacheImpl` (source lines 824-848, 892-908, 1043-1048)

JavaScript runtime values are modelled as an opaque sum: `kw h` is a
`Spacebars.kw` instance carrying its (ordered) hash; `fnv r` is a
function value whose zero-argument call returns `r` (the only way the
functions below invoke an argument); `atom n` is any other value.
Application of a function to an argument list (`value.apply(null, args)`
in `Spacebars.call`) is an oracle parameter `app`, since the embedded
code never inspects its result. -/

inductive SVal where
  | atom (n : Nat)
  | kw (hash : List (String × SVal))
  | fnv (zeroResult : SVal)

/-- `value instanceof Spacebars.kw`. -/
def isKwS : SVal → Bool
  | SVal.kw _ => true
  | _ => false

/-- `typeof value === 'function'`. -/
def isFnS : SVal → Bool
  | SVal.fnv _ => true
  | _ => false

/-- `typeof arg === 'function' ? arg() : arg`. -/
def evalArgS : SVal → SVal
  | SVal.fnv r => r
  | v => v

/-- `Spacebars.call` (source lines 892-908).  The thrown message includes
the stringified value in the source; the fixed prefix is kept here. -/
def Spacebars.call (app : SVal → List SVal → SVal) (value : SVal) (args : List SVal) :
    Except String SVal :=
  match value with
  | SVal.fnv r => Except.ok (app (SVal.fnv r) (args.map evalArgS))
  | v =>
    if args.length > 0 then Except.error "Can\x27t call non-function: "
    else Except.ok v

/-- The per-key evaluation of a keyword hash in `mustacheImpl`
(source lines 838-842). -/
def evalHash (h : List (String × SVal)) : List (String × SVal) :=
  h.map (fun kv => (kv.1, evalArgS kv.2))

/-- The argument-list transformation of `Spacebars.mustacheImpl`
(source lines 824-845) on the arguments after the name: with at least
one argument, if the last is not a `kw` instance a fresh empty `kw` is
pushed, and if it is one it is replaced by a `kw` of the evaluated hash;
with no arguments the list is unchanged.  (The name at index 0 is never
touched, so it is kept separate.) -/
def mustacheImplRest (rest : List SVal) : List SVal :=
  match rest with
  | [] => []
  | _ =>
    match rest.getLast? with
    | some (SVal.kw h) => rest.dropLast ++ [SVal.kw (evalHash h)]
    | _ => rest ++ [SVal.kw []]

/-- `Spacebars.mustacheImpl` (source lines 824-848): transform the
argument list, then `Spacebars.call`. -/
def Spacebars.mustacheImpl (app : SVal → List SVal → SVal) (value : SVal)
    (rest : List SVal) : Except String SVal :=
  Spacebars.call app value (mustacheImplRest rest)


/-! ### Helper definitions for the statements and proofs below -/

/-- Concatenation of optional strings (`none` = a rendering error). -/
def optConcat : Option String → Option String → Option String
  | some a, some b => some (a ++ b)
  | _, _ => none

/-- Character-wise escaping map, as the specification phrases it: `&`
becomes `&amp;`, `<` becomes `&lt;`, anything else is unchanged. -/
def escapeCharSpec (c : Char) : List Char :=
  if c == '&' then "&amp;".data else if c == '<' then "&lt;".data else [c]

/-- The specification\x27s description of string rendering: apply
`escapeCharSpec` to every character. -/
def escapeSpec (s : String) : String :=
  String.mk ((s.data.map escapeCharSpec).flatten)


/-- The closing tag of `{{#a}}...{{/a}}` (used in a witness below). -/
def t5close : RawTag := RawTag.mk TagType.BLOCKCLOSE ["a"] [] "" 6 6


/-- Example tree for the C7 witness: a DIV with one attribute, a text
child containing an ampersand, and a comment child. -/
def c7ExampleTree : HNode :=
  HNode.tag "DIV" (Attrs.amk (AttrList.cons "id" (AttrValue.str "x") AttrList.nil))
    (NodeList.cons (HNode.str "a&b") (NodeList.cons (HNode.comment "c") NodeList.nil))

/-! ## Theorems -/

/-! ### String-append helpers -/

theorem sapp_assoc : ∀ a b c : String, a ++ b ++ c = a ++ (b ++ c) :=
  fun ⟨la⟩ ⟨lb⟩ ⟨lc⟩ => congrArg String.mk (List.append_assoc la lb lc)

theorem sapp_empty : ∀ a : String, a ++ "" = a :=
  fun ⟨la⟩ => congrArg String.mk (List.append_nil la)

theorem sempty_app : ∀ a : String, "" ++ a = a :=
  fun _ => rfl

/-! ### C2 -/

/-- Claim C2 (counterexample): on `{{../../x}}`, `parseStacheTag` returns
the path `["...", "x"]` (three dots: the leading `.` plus one per `..`
clause), not `["....", "x"]` as the claim states. -/
theorem c2_counterexample :
    parseStacheTag "\x7b\x7b../../x\x7d\x7d" 0 none =
      Except.ok (RawTag.mk TagType.DOUBLE ["...", "x"] [] "" 0 11) ∧
    (["...", "x"] : List String) ≠ ["....", "x"] :=
  ⟨rfl, by decide⟩

/-- Claim C2 (amended): `parseStacheTag` on `{{..}}` returns a tag with
path `[".."]`, and on `{{../../x}}` a tag with path `["...", "x"]`. -/
theorem c2_amended :
    parseStacheTag "\x7b\x7b..\x7d\x7d" 0 none =
      Except.ok (RawTag.mk TagType.DOUBLE [".."] [] "" 0 6) ∧
    parseStacheTag "\x7b\x7b../../x\x7d\x7d" 0 none =
      Except.ok (RawTag.mk TagType.DOUBLE ["...", "x"] [] "" 0 11) :=
  ⟨rfl, rfl⟩

/-! ### C4 -/

/-- Claim C4: `checkTag` errors exactly on `INCLUSION` tags with more
than one positional argument, and consequently every tag returned by
`parseStacheTag` with type `INCLUSION` has at most one positional
argument. -/
theorem c4_inclusion_positional :
    (∀ t : RawTag,
       checkTagError t = true ↔ (t.type = TagType.INCLUSION ∧ 1 < numPosArgs t)) ∧
    (∀ (input : String) (pos : Nat) (sn : Option String) (t : RawTag),
       parseStacheTag input pos sn = Except.ok t →
       t.type = TagType.INCLUSION → numPosArgs t ≤ 1) := by
  constructor
  · intro t
    simp [checkTagError]
  · intro input pos sn t hok hinc
    unfold parseStacheTag parseStacheTagCore at hok
    cases hinner : parseStacheTagInner input.data sn pos with
    | error e => simp [hinner] at hok
    | ok tp =>
      obtain ⟨t0, ep⟩ := tp
      simp only [hinner] at hok
      cases hchk : checkTagError t0 with
      | true => rw [if_pos hchk] at hok; exact absurd hok (by simp)
      | false =>
        rw [if_neg (by simp [hchk])] at hok
        have ht : t = RawTag.mk t0.type t0.path t0.args t0.value pos (ep - pos) := by
          cases hok; rfl
        have hargs : numPosArgs t = numPosArgs t0 := by rw [ht]; rfl
        have htype : t0.type = TagType.INCLUSION := by rw [ht] at hinc; exact hinc
        have hno : ¬(1 < numPosArgs t0) := by
          intro hcontra
          have : checkTagError t0 = true := by simp [checkTagError, htype, hcontra]
          rw [hchk] at this
          exact absurd this (by simp)
        rw [hargs]
        omega

/-- Witness for C4 at `{{> foo x}}`: the parse succeeds with one
positional argument, and the theorem bounds it. -/
theorem c4_witness :
    numPosArgs (RawTag.mk TagType.INCLUSION ["foo"] [SArg.mk (ArgVal.path ["x"]) none] "" 0 11) ≤ 1 :=
  c4_inclusion_positional.2 "\x7b\x7b> foo x\x7d\x7d" 0 none
    (RawTag.mk TagType.INCLUSION ["foo"] [SArg.mk (ArgVal.path ["x"]) none] "" 0 11) rfl rfl

/-! ### C8 -/

/-- Claim C8: `Spacebars.call` errors exactly when the value is not a
function and at least one argument is supplied; a non-function value with
no arguments passes through; a function is applied to its arguments after
each function-valued argument is evaluated by a zero-argument call. -/
theorem c8_spacebars_call :
    ∀ (app : SVal → List SVal → SVal) (value : SVal) (args : List SVal),
      ((∃ e, Spacebars.call app value args = Except.error e) ↔
        (isFnS value = false ∧ args ≠ [])) ∧
      (isFnS value = false → Spacebars.call app value [] = Except.ok value) ∧
      (isFnS value = true →
        Spacebars.call app value args = Except.ok (app value (args.map evalArgS))) := by
  intro app value args
  refine ⟨?_, ?_, ?_⟩
  · cases value with
    | fnv r => simp [Spacebars.call, isFnS]
    | atom n =>
      cases args with
      | nil => simp [Spacebars.call, isFnS]
      | cons a t => simp [Spacebars.call, isFnS]
    | kw h =>
      cases args with
      | nil => simp [Spacebars.call, isFnS]
      | cons a t => simp [Spacebars.call, isFnS]
  · intro hnf
    cases value with
    | fnv r => simp [isFnS] at hnf
    | atom n => simp [Spacebars.call]
    | kw h => simp [Spacebars.call]
  · intro hf
    cases value with
    | fnv r => simp [Spacebars.call]
    | atom n => simp [isFnS] at hf
    | kw h => simp [isFnS] at hf

/-- Witness for C8: concrete error, pass-through, and application cases. -/
theorem c8_witness :
    (∃ e, Spacebars.call (fun _ _ => SVal.atom 0) (SVal.atom 1) [SVal.atom 2] = Except.error e) ∧
    Spacebars.call (fun _ _ => SVal.atom 0) (SVal.atom 1) [] = Except.ok (SVal.atom 1) ∧
    Spacebars.call (fun _ args => SVal.kw [("n", args.headD (SVal.atom 9))])
        (SVal.fnv (SVal.atom 3)) [SVal.fnv (SVal.atom 7)] =
      Except.ok (SVal.kw [("n", SVal.atom 7)]) := by
  refine ⟨?_, ?_, ?_⟩
  · exact (c8_spacebars_call (fun _ _ => SVal.atom 0) (SVal.atom 1) [SVal.atom 2]).1.mpr
      ⟨rfl, by simp⟩
  · exact (c8_spacebars_call (fun _ _ => SVal.atom 0) (SVal.atom 1) []).2.1 rfl
  · exact (c8_spacebars_call _ (SVal.fnv (SVal.atom 3)) [SVal.fnv (SVal.atom 7)]).2.2 rfl

/-! ### C9 -/

/-- Claim C9: the argument list that `mustacheImpl` hands to
`Spacebars.call` ends in a `kw` instance whenever at least one argument
follows the name: a non-`kw` last argument gets a fresh empty `kw`
appended, a `kw` last argument is replaced by a `kw` of its evaluated
hash, and an empty argument list stays empty. -/
theorem c9_mustache_kw :
    (mustacheImplRest [] = []) ∧
    (∀ rest : List SVal, rest ≠ [] →
       ∃ h, (mustacheImplRest rest).getLast? = some (SVal.kw h)) ∧
    (∀ (rs : List SVal) (r : SVal), isKwS r = false →
       mustacheImplRest (rs ++ [r]) = rs ++ [r, SVal.kw []]) ∧
    (∀ (rs : List SVal) (h : List (String × SVal)),
       mustacheImplRest (rs ++ [SVal.kw h]) = rs ++ [SVal.kw (evalHash h)]) ∧
    (∀ app value rest,
       Spacebars.mustacheImpl app value rest =
         Spacebars.call app value (mustacheImplRest rest)) := by
  have hlastcase : ∀ (rest : List SVal), rest ≠ [] →
      mustacheImplRest rest =
        (match rest.getLast? with
         | some (SVal.kw h) => rest.dropLast ++ [SVal.kw (evalHash h)]
         | _ => rest ++ [SVal.kw []]) := by
    intro rest hne
    cases rest with
    | nil => exact absurd rfl hne
    | cons a t => rfl
  refine ⟨rfl, ?_, ?_, ?_, ?_⟩
  · intro rest hne
    rw [hlastcase rest hne]
    cases hlast : rest.getLast? with
    | none =>
      cases rest with
      | nil => exact absurd rfl hne
      | cons a t => simp [List.getLast?_eq_getLast] at hlast
    | some r =>
      cases r with
      | kw h => exact ⟨evalHash h, by simp⟩
      | atom n => exact ⟨[], by simp⟩
      | fnv z => exact ⟨[], by simp⟩
  · intro rs r hr
    have hne : rs ++ [r] ≠ [] := by simp
    rw [hlastcase _ hne]
    rw [List.getLast?_concat]
    cases r with
    | kw h => simp [isKwS] at hr
    | atom n => simp
    | fnv z => simp
  · intro rs h
    have hne : rs ++ [SVal.kw h] ≠ [] := by simp
    rw [hlastcase _ hne]
    rw [List.getLast?_concat]
    simp
  · intro app value rest
    rfl

/-- Witness for C9 at concrete argument lists. -/
theorem c9_witness :
    mustacheImplRest [SVal.atom 4] = [SVal.atom 4, SVal.kw []] ∧
    mustacheImplRest [SVal.atom 4, SVal.kw [("k", SVal.fnv (SVal.atom 8))]] =
      [SVal.atom 4, SVal.kw [("k", SVal.atom 8)]] := by
  constructor
  · exact c9_mustache_kw.2.2.1 [] (SVal.atom 4) rfl
  · exact c9_mustache_kw.2.2.2.1 [SVal.atom 4] [("k", SVal.fnv (SVal.atom 8))]

/-! ### C10 -/

theorem replaceAllChar_append (c : Char) (rep : List Char) :
    ∀ a b : List Char,
      replaceAllChar c rep (a ++ b) = replaceAllChar c rep a ++ replaceAllChar c rep b := by
  intro a b
  induction a with
  | nil => rfl
  | cons x t ih => simp [replaceAllChar, ih]

theorem escape_step (c : Char) :
    replaceAllChar '<' "&lt;".data (if c == '&' then "&amp;".data else [c]) =
      escapeCharSpec c := by
  by_cases hc : c = '&'
  · subst hc; rfl
  · rw [if_neg (by simpa using hc)]
    by_cases hl : c = '<'
    · subst hl; rfl
    · simp [replaceAllChar, escapeCharSpec, hc, hl]

theorem escapeText_eq_spec : ∀ s : String, escapeText s = escapeSpec s := by
  intro s
  apply congrArg String.mk
  show replaceAllChar '<' "&lt;".data (replaceAllChar '&' "&amp;".data s.data) =
    (s.data.map escapeCharSpec).flatten
  induction s.data with
  | nil => rfl
  | cons x t ih =>
    show replaceAllChar '<' "&lt;".data
        ((if x == '&' then "&amp;".data else [x]) ++ replaceAllChar '&' "&amp;".data t) = _
    rw [replaceAllChar_append, escape_step, ih]
    rfl

theorem replace_pure_chars :
    ∀ l : List Char, l.contains '&' = false → l.contains '<' = false →
      replaceAllChar '<' "&lt;".data (replaceAllChar '&' "&amp;".data l) = l := by
  intro l
  induction l with
  | nil => intro _ _; rfl
  | cons x t ih =>
    intro h1 h2
    simp only [List.contains_cons, Bool.or_eq_false_iff, beq_eq_false_iff_ne] at h1 h2
    show replaceAllChar '<' "&lt;".data
        ((if x == '&' then "&amp;".data else [x]) ++ replaceAllChar '&' "&amp;".data t) = x :: t
    rw [if_neg (by simpa using fun h => h1.1 (Eq.symm h))]
    rw [replaceAllChar_append]
    show (if x == '<' then "&lt;".data else [x]) ++ [] ++ _ = x :: t
    rw [if_neg (by simpa using fun h => h2.1 (Eq.symm h))]
    rw [ih h1.2 h2.2]
    rfl

theorem escape_pure : ∀ s : String, isPureChars s = true → escapeText s = s := by
  intro s hp
  have hp2 : s.data.contains '&' = false ∧ s.data.contains '<' = false := by
    have h1 := hp
    simp only [isPureChars, Bool.and_eq_true, Bool.not_eq_true'] at h1
    exact h1
  show String.mk (replaceAllChar '<' "&lt;".data (replaceAllChar '&' "&amp;".data s.data)) = s
  rw [replace_pure_chars s.data hp2.1 hp2.2]

/-- Claim C10: `toHTML` on a string node escapes `&` to `&amp;` and `<`
to `&lt;`, leaving every other character unchanged (the character-wise
reading `escapeSpec`), so a string with neither `&` nor `<` renders as
itself. -/
theorem c10_toHTML_string :
    (∀ s : String, toHTML (HNode.str s) = some (escapeText s)) ∧
    (∀ s : String, escapeText s = escapeSpec s) ∧
    (∀ s : String, isPureChars s = true → toHTML (HNode.str s) = some s) := by
  refine ⟨fun s => rfl, escapeText_eq_spec, ?_⟩
  intro s hp
  show some (escapeText s) = some s
  rw [escape_pure s hp]

/-- Witness for C10: a pure-character string renders as itself. -/
theorem c10_witness :
    isPureChars "Hello >\x27\" world" = true ∧
    toHTML (HNode.str "Hello >\x27\" world") = some "Hello >\x27\" world" :=
  ⟨by decide, c10_toHTML_string.2.2 _ (by decide)⟩


/-! ### C3 -/

theorem jsLex_stringLit_head :
    ∀ (rem text : List Char), jsLex rem = some (TokType.stringLit, text) →
      ∃ rest, rem = '"' :: rest ∨ rem = '\x27' :: rest := by
  intro rem text h
  cases rem with
  | nil => simp [jsLex] at h
  | cons c rest =>
    by_cases hq : (c == '"' || c == '\x27') = true
    · rcases Bool.or_eq_true_iff.mp hq with h1 | h1
      · exact ⟨rest, Or.inl (by rw [beq_iff_eq.mp h1])⟩
      · exact ⟨rest, Or.inr (by rw [beq_iff_eq.mp h1])⟩
    · exfalso
      simp only [jsLex] at h
      rw [if_neg hq] at h
      split at h
      · cases hn : lexNumber (c :: rest) with
        | none => rw [hn] at h; simp at h
        | some t2 => rw [hn] at h; simp at h
      · split at h
        · cases hn : lexNumber (c :: rest) with
          | none => rw [hn] at h; simp at h
          | some t2 => rw [hn] at h; simp at h
        · split at h
          · simp only [Option.some.injEq, Prod.mk.injEq] at h
            obtain ⟨h1, -⟩ := h
            split at h1
            · simp at h1
            · split at h1 <;> simp at h1
          · split at h
            · split at h
              · split at h <;> simp at h
              · simp at h
            · simp at h

/-- Claim C3: inside `scanArg`, a string token of text `text` decodes by
swapping single-quote delimiters to double quotes, mapping every CR, LF,
U+2028 and U+2029 character to the letter `n`, and parsing the result as
a JSON string (an unparseable result throws). -/
theorem c3_string_decode :
    ∀ (inp rem : List Char) (sn : Option String) (fuel pos : Nat) (text : List Char),
      jsLex rem = some (TokType.stringLit, text) →
      scanArg inp sn (fuel + 1) false rem pos =
        (match jsonParseString (newlineFamilyToN (swapQuoteDelims text)) with
         | some v =>
           Except.ok (SArg.mk (ArgVal.strv v) none, rem.drop text.length, pos + text.length)
         | none => Except.error "SyntaxError: unexpected token in JSON.parse") := by
  intro inp rem sn fuel pos text h
  obtain ⟨rest, hc⟩ := jsLex_stringLit_head rem text h
  have hhead : (rem.head? == some '.' || rem.head? == some '[') = false := by
    rcases hc with h1 | h1 <;> rw [h1] <;> rfl
  unfold scanArg
  rw [h]
  simp only [hhead, Bool.false_and, Bool.if_false_left]
  show (if (false && true) = true then _
        else if (TokType.stringLit == TokType.punctuation && text == ['-']) = true then _
        else _) = _
  rw [if_neg (by simp)]
  rw [if_neg (by simp)]
  show (if (TokType.stringLit == TokType.boolean) = true then _ else _) = _
  rw [if_neg (by simp)]
  show (if (TokType.stringLit == TokType.nullLit) = true then _ else _) = _
  rw [if_neg (by simp)]
  show (if (TokType.stringLit == TokType.number) = true then _ else _) = _
  rw [if_neg (by simp)]
  show (if (TokType.stringLit == TokType.stringLit) = true then _ else _) = _
  rw [if_pos (by simp)]
  show (match decodeStacheString text with
        | some v =>
          Except.ok (SArg.mk (ArgVal.strv v) none, rem.drop text.length, pos + text.length)
        | none => Except.error "SyntaxError: unexpected token in JSON.parse") = _
  rfl

/-- Witness for C3 on the single-quoted token `'a\<U+2028>b'` (a line
continuation): the delimiter swap and the `n`-substitution produce the
JSON text `"a\nb"`, which decodes to `a`, newline, `b`. -/
theorem c3_witness :
    scanArg [] none 9 false ('\x27' :: 'a' :: '\\' :: ' ' :: 'b' :: '\x27' :: []) 0 =
      Except.ok (SArg.mk (ArgVal.strv "a\nb") none, [], 6) := by
  have h := c3_string_decode [] ('\x27' :: 'a' :: '\\' :: ' ' :: 'b' :: '\x27' :: [])
    none 8 0 ('\x27' :: 'a' :: '\\' :: ' ' :: 'b' :: '\x27' :: []) rfl
  exact h.trans rfl

/-! ### C6 -/

/-- Structure of an `ELSE`-opener match: the input is two braces, then
(after the whitespace run) `e`/`E` followed by the rest of `else`. -/
theorem matchElse_structure :
    ∀ (rem : List Char) (r : List Char × Nat), matchElseStart rem = some r →
      ∃ rtail c1 c2 c3 c4 r2,
        rem = '\x7b' :: '\x7b' :: rtail ∧
        rtail.drop (rtail.takeWhile isJsSpace).length = c1 :: c2 :: c3 :: c4 :: r2 ∧
        (c1 == 'e' || c1 == 'E') = true := by
  intro rem r h
  unfold matchElseStart at h
  split at h
  next rtail =>
    dsimp only [] at h
    split at h
    next c1 c2 c3 c4 r2 heq =>
      split at h
      next hcond =>
        refine ⟨rtail, c1, c2, c3, c4, r2, rfl, heq, ?_⟩
        simp only [Bool.and_eq_true] at hcond
        exact hcond.1.1.1.1
      next => simp at h
    next => simp at h
  next => simp at h

/-- Claim C6: any input matching the `ELSE` opener (two braces, optional
whitespace, `else`, then whitespace or a closing brace) is dispatched as
`ELSE` by `parseStacheTag` -- and such an input also matches the `DOUBLE`
opener, so the `ELSE`-first order is what prevents the `DOUBLE` reading;
at top level, `Spacebars.parse` on the else tag raises the fatal
unexpected-else error instead of producing a node. -/
theorem c6_else_dispatch :
    (∀ (rem : List Char) (r : List Char × Nat), matchElseStart rem = some r →
       stacheDispatch rem = some (TagType.ELSE, r) ∧ matchDoubleStart rem ≠ none) ∧
    Spacebars.parse "\x7b\x7b else \x7d\x7d" =
      Except.error "Found unexpected \x7b\x7belse\x7d\x7d\x7d" := by
  constructor
  · intro rem r h
    constructor
    · unfold stacheDispatch
      rw [h]
    · obtain ⟨rtail, c1, c2, c3, c4, r2, hrem, heq, hc1⟩ := matchElse_structure rem r h
      subst hrem
      show (match (rtail.drop (rtail.takeWhile isJsSpace).length).head? with
            | some c =>
              if (!isJsSpace c && notSigil c) = true then
                some (rtail.drop (rtail.takeWhile isJsSpace).length,
                      2 + (rtail.takeWhile isJsSpace).length)
              else none
            | none => some (rtail.drop (rtail.takeWhile isJsSpace).length,
                  2 + (rtail.takeWhile isJsSpace).length)) ≠ none
      rw [heq]
      show (if (!isJsSpace c1 && notSigil c1) = true then
              some (c1 :: c2 :: c3 :: c4 :: r2, 2 + (rtail.takeWhile isJsSpace).length)
            else none) ≠ none
      rcases Bool.or_eq_true_iff.mp hc1 with h1 | h1
      · rw [beq_iff_eq.mp h1, if_pos (by decide)]
        simp
      · rw [beq_iff_eq.mp h1, if_pos (by decide)]
        simp
  · rfl

/-- Witness for C6 at the input `{{ else }}`. -/
theorem c6_witness :
    stacheDispatch "\x7b\x7b else \x7d\x7d".data =
      some (TagType.ELSE, ([' ', '\x7d', '\x7d'], 7)) ∧
    matchDoubleStart "\x7b\x7b else \x7d\x7d".data ≠ none := by
  have h := c6_else_dispatch.1 "\x7b\x7b else \x7d\x7d".data ([' ', '\x7d', '\x7d'], 7) rfl
  exact h

/-! ### C5 -/

/-- Claim C5: the block-close validation accepts exactly a `BLOCKCLOSE`
tag whose comma-joined path equals the opener\x27s name (so a `BLOCKOPEN`
node is only produced after consuming such a closer), and
`{{#a}}{{/b}}` is a fatal block-name-mismatch error (with the `NaN`
artifact of the source\x27s `+ +` slip), while `{{#a}}{{/a}}` parses. -/
theorem c5_block_close :
    (∀ (name : String) (t : RawTag),
       (∃ adv, blockCloseCheck name t = Except.ok adv) ↔
         (t.type = TagType.BLOCKCLOSE ∧ joinComma t.path = name)) ∧
    Spacebars.parse "\x7b\x7b#a\x7d\x7d\x7b\x7b/b\x7d\x7d" =
      Except.error "Expected tag to close a, found NaN" ∧
    Spacebars.parse "\x7b\x7b#a\x7d\x7d\x7b\x7b/a\x7d\x7d" =
      Except.ok (HNode.arr (NodeList.cons
        (HNode.special (SpTag.mk TagType.BLOCKOPEN ["a"] none
          (OptNode.osome (HNode.arr NodeList.nil)) OptNode.onone none))
        NodeList.nil)) := by
  refine ⟨?_, rfl, rfl⟩
  intro name t
  unfold blockCloseCheck
  constructor
  · rintro ⟨adv, h⟩
    by_cases h1 : (t.type == TagType.BLOCKCLOSE) = true
    · rw [if_pos h1] at h
      by_cases h2 : (name != joinComma t.path) = true
      · rw [if_pos h2] at h; exact absurd h (by simp)
      · refine ⟨beq_iff_eq.mp h1, ?_⟩
        have h2e : name = joinComma t.path := by
          by_contra hne
          exact h2 (bne_iff_ne.mpr hne)
        exact h2e.symm
    · rw [if_neg h1] at h; exact absurd h (by simp)
  · rintro ⟨h1, h2⟩
    rw [if_pos (beq_iff_eq.mpr h1)]
    rw [if_neg (by simp [h2])]
    exact ⟨t.charLength, rfl⟩

/-- Witness for C5: the validation accepts the matching closer of
`{{#a}}...{{/a}}`. -/
theorem c5_witness :
    t5close.type = TagType.BLOCKCLOSE ∧ joinComma t5close.path = "a" :=
  (c5_block_close.1 "a" t5close).mp ⟨6, rfl⟩

/-! ### C1 -/

/-- Claim C1 (the code defeats it): `Spacebars.codeGen` never invokes
the optimizer -- `var isTemplate` is read before its assignment, so the
guard is always falsy -- and therefore equals the version with no
optimizer pass for every tree and option; on the special-free tree
`P("Hi")` with `isTemplate` true it emits the unoptimized
`UI.Tag.P("Hi")`, where the specified behavior (`codeGenAsSpecified`)
collapses to `HTML.Raw("<p>Hi</p>")`. -/
theorem c1_codegen_never_optimizes :
    (∀ (t : HNode) (b : Bool), Spacebars.codeGen t b = codeGenNoOptimize t b) ∧
    Spacebars.codeGen (HNode.tag "P" Attrs.anull (NodeList.cons (HNode.str "Hi") NodeList.nil)) true =
      Except.ok "(function () \x7b var self = this; var __content = self.__content, __elseContent = self.__elseContent; return UI.Tag.P(\"Hi\"); \x7d)" ∧
    codeGenAsSpecified (HNode.tag "P" Attrs.anull (NodeList.cons (HNode.str "Hi") NodeList.nil)) true =
      Except.ok "(function () \x7b var self = this; var __content = self.__content, __elseContent = self.__elseContent; return HTML.Raw(\"<p>Hi</p>\"); \x7d)" :=
  ⟨fun _ _ => rfl, rfl, rfl⟩


/-! ### C7: preliminary lemmas on rendering -/

theorem optConcat_assoc : ∀ a b c : Option String,
    optConcat (optConcat a b) c = optConcat a (optConcat b c) := by
  intro a b c
  cases a <;> cases b <;> cases c <;> simp [optConcat, sapp_assoc]

theorem optConcat_some_empty : ∀ a : Option String, optConcat a (some "") = a := by
  intro a
  cases a <;> simp [optConcat, sapp_empty]

theorem toHTMLL_cons : ∀ (c : HNode) (t : List HNode),
    toHTMLL (c :: t) = optConcat (toHTML c) (toHTMLL t) := by
  intro c t
  show (match toHTML c, toHTMLL t with
        | some a, some b => some (a ++ b)
        | _, _ => none) = _
  cases toHTML c <;> cases toHTMLL t <;> rfl

theorem toHTMLList_ofList : ∀ l : List HNode, toHTMLList (ofList l) = toHTMLL l := by
  intro l
  induction l with
  | nil => rfl
  | cons c t ih =>
    show (match toHTML c, toHTMLList (ofList t) with
          | some a, some b => some (a ++ b)
          | _, _ => none) = _
    rw [ih, toHTMLL_cons]
    show (match toHTML c, toHTMLL t with
          | some a, some b => some (a ++ b)
          | _, _ => none) = optConcat (toHTML c) (toHTMLL t)
    cases toHTML c <;> cases toHTMLL t <;> rfl

theorem toHTMLL_toList : ∀ cs : NodeList, toHTMLL cs.toList = toHTMLList cs
  | NodeList.nil => rfl
  | NodeList.cons h t => by
    show toHTMLL (h :: t.toList) = _
    rw [toHTMLL_cons, toHTMLL_toList t]
    show optConcat (toHTML h) (toHTMLList t) =
      (match toHTML h, toHTMLList t with
       | some a, some b => some (a ++ b)
       | _, _ => none)
    cases toHTML h <;> cases toHTMLList t <;> rfl

theorem toHTMLL_append : ∀ a b : List HNode,
    toHTMLL (a ++ b) = optConcat (toHTMLL a) (toHTMLL b) := by
  intro a b
  induction a with
  | nil =>
    show toHTMLL b = optConcat (some "") (toHTMLL b)
    cases hb : toHTMLL b with
    | none => rfl
    | some s => show some s = some ("" ++ s); rw [sempty_app]
  | cons c t ih =>
    show toHTMLL (c :: (t ++ b)) = _
    rw [toHTMLL_cons, ih, toHTMLL_cons, optConcat_assoc]

theorem toHTMLL_single_raw : ∀ w : String, toHTMLL [HNode.raw w] = some w := by
  intro w
  rw [toHTMLL_cons]
  exact optConcat_some_empty _

theorem toHTMLL_single : ∀ x : HNode, toHTMLL [x] = optConcat (toHTML x) (some "") := by
  intro x
  rw [toHTMLL_cons]
  rfl

theorem toHTMLL_pair_raw : ∀ (x : HNode) (h : String),
    toHTMLL [x, HNode.raw h] = optConcat (toHTMLL [x]) (some h) := by
  intro x h
  rw [toHTMLL_cons, toHTMLL_single_raw, toHTMLL_single, optConcat_some_empty]

theorem pushRawHTML_toHTMLL : ∀ (l : List HNode) (h : String),
    toHTMLL (pushRawHTML l h) = optConcat (toHTMLL l) (some h) := by
  intro l h
  induction l with
  | nil =>
    show toHTMLL [HNode.raw h] = optConcat (some "") (some h)
    rw [toHTMLL_single_raw]
    show some h = some ("" ++ h)
    rw [sempty_app]
  | cons x xs ih =>
    cases xs with
    | nil =>
      cases x with
      | raw v =>
        show toHTMLL [HNode.raw (v ++ h)] = optConcat (toHTMLL [HNode.raw v]) (some h)
        rw [toHTMLL_single_raw, toHTMLL_single_raw]
        rfl
      | nullNode => exact toHTMLL_pair_raw _ _
      | str sv => exact toHTMLL_pair_raw _ _
      | charRef hv sv => exact toHTMLL_pair_raw _ _
      | comment tv => exact toHTMLL_pair_raw _ _
      | tag n a cs => exact toHTMLL_pair_raw _ _
      | arr ns => exact toHTMLL_pair_raw _ _
      | special t => exact toHTMLL_pair_raw _ _
      | emitCode cv => exact toHTMLL_pair_raw _ _
      | fnNode i => exact toHTMLL_pair_raw _ _
    | cons y ys =>
      cases x <;>
        (show toHTMLL (_ :: pushRawHTML (y :: ys) h) = _
         rw [toHTMLL_cons, ih]
         conv_rhs => rw [toHTMLL_cons]
         rw [optConcat_assoc])

theorem demote_toHTML : ∀ n : HNode, toHTML (demoteNode n) = toHTML n := by
  intro n
  cases n with
  | raw v =>
    show toHTML (if isPureChars v then HNode.str v else HNode.raw v) = some v
    by_cases hp : isPureChars v = true
    · rw [if_pos hp]
      show some (escapeText v) = some v
      rw [escape_pure v hp]
    · rw [if_neg hp]
      rfl
  | nullNode => rfl
  | str sv => rfl
  | charRef hv sv => rfl
  | comment tv => rfl
  | tag n a cs => rfl
  | arr ns => rfl
  | special t => rfl
  | emitCode cv => rfl
  | fnNode i => rfl

theorem toHTMLL_map_demote : ∀ l : List HNode,
    toHTMLL (l.map demoteNode) = toHTMLL l := by
  intro l
  induction l with
  | nil => rfl
  | cons c t ih =>
    show toHTMLL (demoteNode c :: t.map demoteNode) = _
    rw [toHTMLL_cons, demote_toHTML, ih, toHTMLL_cons]

mutual
theorem clean_toHTML : ∀ t : HNode, cleanNode t = true → (toHTML t).isSome = true
  | HNode.nullNode, _ => rfl
  | HNode.str _, _ => rfl
  | HNode.raw _, _ => rfl
  | HNode.charRef _ _, _ => rfl
  | HNode.comment _, _ => rfl
  | HNode.tag n a cs, h => by
    have hl := clean_toHTMLList cs h
    show (match toHTMLList cs with
          | some inner => some ("<" ++ properCaseTagName n ++ attrsToHTML a ++ ">" ++ inner ++
              "</" ++ properCaseTagName n ++ ">")
          | none => none).isSome = true
    cases hx : toHTMLList cs with
    | none => rw [hx] at hl; exact absurd hl (by simp)
    | some s => rfl
  | HNode.arr ns, h => clean_toHTMLList ns h
theorem clean_toHTMLList : ∀ cs : NodeList, cleanNL cs = true → (toHTMLList cs).isSome = true
  | NodeList.nil, _ => rfl
  | NodeList.cons c t, h => by
    have hc : cleanNode c = true ∧ cleanNL t = true := by
      simpa [cleanNL, Bool.and_eq_true] using h
    have h1 := clean_toHTML c hc.1
    have h2 := clean_toHTMLList t hc.2
    show (match toHTML c, toHTMLList t with
          | some a, some b => some (a ++ b)
          | _, _ => none).isSome = true
    cases hx : toHTML c with
    | none => rw [hx] at h1; exact absurd h1 (by simp)
    | some a =>
      cases hy : toHTMLList t with
      | none => rw [hy] at h2; exact absurd h2 (by simp)
      | some b => rfl
end


/-! ### C7: the array walk of the optimizer -/

theorem optConcat_empty_left : ∀ a : Option String, optConcat (some "") a = a := by
  intro a
  cases a with
  | none => rfl
  | some s =>
    show some ("" ++ s) = some s
    rw [sempty_app]

theorem toHTMLL_append_single : ∀ (l : List HNode) (x : HNode),
    toHTMLL (l ++ [x]) = optConcat (toHTMLL l) (toHTML x) := by
  intro l x
  rw [toHTMLL_append, toHTMLL_single, ← optConcat_assoc, optConcat_some_empty]

theorem sbFold_spec : ∀ (pre : List HNode) (acc : List HNode),
    (∀ c ∈ pre, (toHTML c).isSome = true) →
    ∃ b, pre.foldl sbStep (some acc) = some b ∧
      toHTMLL b = optConcat (toHTMLL acc) (toHTMLL pre) := by
  intro pre
  induction pre with
  | nil =>
    intro acc _
    exact ⟨acc, rfl, (optConcat_some_empty _).symm⟩
  | cons c t ih =>
    intro acc h
    have hc : (toHTML c).isSome = true := h c (List.mem_cons_self _ _)
    obtain ⟨v, hv⟩ : ∃ v, toHTML c = some v := by
      cases hx : toHTML c with
      | none => rw [hx] at hc; exact absurd hc (by simp)
      | some v => exact ⟨v, rfl⟩
    have hstep : sbStep (some acc) c = some (pushRawHTML acc v) := by
      simp [sbStep, hv]
    show ∃ b, List.foldl sbStep (sbStep (some acc) c) t = some b ∧ _
    rw [hstep]
    obtain ⟨b, hb1, hb2⟩ := ih (pushRawHTML acc v) (fun x hx => h x (List.mem_cons_of_mem _ hx))
    refine ⟨b, hb1, ?_⟩
    rw [hb2, pushRawHTML_toHTMLL, optConcat_assoc, toHTMLL_cons, hv]

theorem stringifyBefore_spec : ∀ pre : List HNode,
    (∀ c ∈ pre, (toHTML c).isSome = true) →
    ∃ b, stringifyBefore pre = some b ∧ toHTMLL b = toHTMLL pre := by
  intro pre h
  obtain ⟨b, h1, h2⟩ := sbFold_spec pre [] h
  refine ⟨b, h1, ?_⟩
  rw [h2]
  exact optConcat_empty_left _

theorem assembleGo_spec :
    ∀ (pairs : List (HNode × Option HNode)) (res : Option (List HNode)) (pre : List HNode),
      (∀ p ∈ pairs, p.2 = none → (toHTML p.1).isSome = true) →
      (∀ p ∈ pairs, ∀ t2, p.2 = some t2 → toHTML t2 = toHTML p.1) →
      (match res with
       | none => ∀ c ∈ pre, (toHTML c).isSome = true
       | some a => toHTMLL a = toHTMLL pre) →
      ∃ out, assembleGo pairs res pre = some out ∧
        ∀ parts, out = some parts → toHTMLL parts = toHTMLL (pre ++ pairs.map Prod.fst) := by
  intro pairs
  induction pairs with
  | nil =>
    intro res pre _ _ hinv
    refine ⟨res, rfl, ?_⟩
    intro parts hp
    cases res with
    | none => exact absurd hp (by simp)
    | some a =>
      have : a = parts := by injection hp
      subst this
      show toHTMLL a = toHTMLL (pre ++ [])
      rw [List.append_nil]
      exact hinv
  | cons pr rest ih =>
    obtain ⟨c, r⟩ := pr
    intro res pre hclean hpres hinv
    have hcleanR : ∀ p ∈ rest, p.2 = none → (toHTML p.1).isSome = true :=
      fun p hp => hclean p (List.mem_cons_of_mem _ hp)
    have hpresR : ∀ p ∈ rest, ∀ t2, p.2 = some t2 → toHTML t2 = toHTML p.1 :=
      fun p hp => hpres p (List.mem_cons_of_mem _ hp)
    have hmapfst : ((c, r) :: rest).map Prod.fst = c :: rest.map Prod.fst := rfl
    cases r with
    | some part =>
      have hpart : toHTML part = toHTML c :=
        hpres (c, some part) (List.mem_cons_self _ _) part rfl
      cases res with
      | some a =>
        have hinv2 : toHTMLL (a ++ [part]) = toHTMLL (pre ++ [c]) := by
          rw [toHTMLL_append_single, toHTMLL_append_single, hpart, hinv]
        obtain ⟨out, hgo, hout⟩ := ih (some (a ++ [part])) (pre ++ [c]) hcleanR hpresR hinv2
        refine ⟨out, hgo, ?_⟩
        intro parts hp
        rw [hout parts hp, hmapfst, List.append_assoc]
        rfl
      | none =>
        obtain ⟨b, hsb, hb⟩ := stringifyBefore_spec pre hinv
        have hinv2 : toHTMLL (b ++ [part]) = toHTMLL (pre ++ [c]) := by
          rw [toHTMLL_append_single, toHTMLL_append_single, hpart, hb]
        obtain ⟨out, hgo, hout⟩ := ih (some (b ++ [part])) (pre ++ [c]) hcleanR hpresR hinv2
        refine ⟨out, ?_, ?_⟩
        · show (match stringifyBefore pre with
                | none => none
                | some base => assembleGo rest (some (base ++ [part])) (pre ++ [c])) = some out
          rw [hsb]
          exact hgo
        · intro parts hp
          rw [hout parts hp, hmapfst, List.append_assoc]
          rfl
    | none =>
      cases res with
      | none =>
        have hcS : (toHTML c).isSome = true := hclean (c, none) (List.mem_cons_self _ _) rfl
        have hinv2 : ∀ c2 ∈ pre ++ [c], (toHTML c2).isSome = true := by
          intro c2 hc2
          rcases List.mem_append.mp hc2 with hmem | hmem
          · exact hinv c2 hmem
          · rw [List.mem_singleton.mp hmem]
            exact hcS
        obtain ⟨out, hgo, hout⟩ := ih none (pre ++ [c]) hcleanR hpresR hinv2
        refine ⟨out, hgo, ?_⟩
        intro parts hp
        rw [hout parts hp, hmapfst, List.append_assoc]
        rfl
      | some a =>
        have hcS : (toHTML c).isSome = true := hclean (c, none) (List.mem_cons_self _ _) rfl
        obtain ⟨v, hv⟩ : ∃ v, toHTML c = some v := by
          cases hx : toHTML c with
          | none => rw [hx] at hcS; exact absurd hcS (by simp)
          | some v => exact ⟨v, rfl⟩
        have hinv2 : toHTMLL (pushRawHTML a v) = toHTMLL (pre ++ [c]) := by
          rw [pushRawHTML_toHTMLL, toHTMLL_append_single, hv, hinv]
        obtain ⟨out, hgo, hout⟩ := ih (some (pushRawHTML a v)) (pre ++ [c]) hcleanR hpresR hinv2
        refine ⟨out, ?_, ?_⟩
        · show (match toHTML c with
                | none => none
                | some h2 => assembleGo rest (some (pushRawHTML a h2)) (pre ++ [c])) = some out
          rw [hv]
          exact hgo
        · intro parts hp
          rw [hout parts hp, hmapfst, List.append_assoc]
          rfl

theorem assembleGo_none :
    ∀ (pairs : List (HNode × Option HNode)) (res : Option (List HNode)) (pre : List HNode),
      assembleGo pairs res pre = some none →
      res = none ∧ ∀ p ∈ pairs, p.2 = none := by
  intro pairs
  induction pairs with
  | nil =>
    intro res pre h
    have : res = none := by
      have h2 : some res = some none := h
      injection h2
    exact ⟨this, by simp⟩
  | cons pr rest ih =>
    obtain ⟨c, r⟩ := pr
    intro res pre h
    cases r with
    | some part =>
      exfalso
      have h2 : (match (match res with
                        | some a => some a
                        | none => stringifyBefore pre) with
                 | none => none
                 | some base => assembleGo rest (some (base ++ [part])) (pre ++ [c])) =
          some none := h
      cases hbase : (match res with
                     | some a => some a
                     | none => stringifyBefore pre) with
      | none => rw [hbase] at h2; exact absurd h2 (by simp)
      | some base =>
        rw [hbase] at h2
        have := (ih _ _ h2).1
        exact absurd this (by simp)
    | none =>
      cases res with
      | none =>
        have h2 : assembleGo rest none (pre ++ [c]) = some none := h
        refine ⟨rfl, ?_⟩
        intro p hp
        rcases List.mem_cons.mp hp with hmem | hmem
        · rw [hmem]
        · exact (ih _ _ h2).2 p hmem
      | some a =>
        exfalso
        have h2 : (match toHTML c with
                   | none => none
                   | some h2 => assembleGo rest (some (pushRawHTML a h2)) (pre ++ [c])) =
            some none := h
        cases hv : toHTML c with
        | none => rw [hv] at h2; exact absurd h2 (by simp)
        | some v =>
          rw [hv] at h2
          have := (ih _ _ h2).1
          exact absurd this (by simp)

theorem assembleParts_spec :
    ∀ (pairs : List (HNode × Option HNode)) (force : Bool),
      (∀ p ∈ pairs, p.2 = none → (toHTML p.1).isSome = true) →
      (∀ p ∈ pairs, ∀ t2, p.2 = some t2 → toHTML t2 = toHTML p.1) →
      ∃ out, assembleParts pairs force = some out ∧
        (∀ parts, out = some parts → toHTMLL parts = toHTMLL (pairs.map Prod.fst)) ∧
        (out = none → force = false ∧ ∀ p ∈ pairs, p.2 = none) := by
  intro pairs force hclean hpres
  have hinv : (match (if force then some ([] : List HNode) else none) with
               | none => ∀ c ∈ ([] : List HNode), (toHTML c).isSome = true
               | some a => toHTMLL a = toHTMLL ([] : List HNode)) := by
    cases force <;> simp
  obtain ⟨out0, hgo, hout0⟩ :=
    assembleGo_spec pairs (if force then some [] else none) [] hclean hpres hinv
  unfold assembleParts
  rw [hgo]
  cases out0 with
  | none =>
    refine ⟨none, rfl, by simp, ?_⟩
    intro _
    have hres := assembleGo_none pairs _ [] hgo
    cases hf : force with
    | true =>
      rw [hf] at hres
      exact absurd hres.1 (by simp)
    | false =>
      rw [hf] at hres
      exact ⟨rfl, hres.2⟩
  | some l =>
    refine ⟨some (l.map demoteNode), rfl, ?_, by simp⟩
    intro parts hp
    have : l.map demoteNode = parts := by injection hp
    subst this
    rw [toHTMLL_map_demote]
    exact hout0 l rfl

theorem optListParts_spec :
    ∀ (cs : NodeList) (pairs : List (HNode × Option HNode)),
      optListParts cs = some pairs →
      pairs.map Prod.fst = cs.toList ∧ ∀ p ∈ pairs, optimizeParts p.1 = some p.2
  | NodeList.nil => by
    intro pairs h
    have : ([] : List (HNode × Option HNode)) = pairs := by injection h
    subst this
    exact ⟨rfl, by simp⟩
  | NodeList.cons c t => by
    intro pairs hp
    have hp2 : (match optimizeParts c, optListParts t with
                | some r, some rs => some ((c, r) :: rs)
                | _, _ => none) = some pairs := hp
    cases hx : optimizeParts c with
    | none => rw [hx] at hp2; exact absurd hp2 (by simp)
    | some r =>
      cases hy : optListParts t with
      | none => rw [hx, hy] at hp2; exact absurd hp2 (by simp)
      | some rs =>
        rw [hx, hy] at hp2
        have : (c, r) :: rs = pairs := by injection hp2
        subst this
        obtain ⟨r1, r2⟩ := optListParts_spec t rs hy
        refine ⟨?_, ?_⟩
        · show c :: rs.map Prod.fst = c :: t.toList
          rw [r1]
        · intro p hpm
          rcases List.mem_cons.mp hpm with hmem | hmem
          · rw [hmem]
            exact hx
          · exact r2 p hmem


/-! ### C7: cleanliness of fully-plain subtrees and the preservation
argument -/

mutual
/-- A node on which `optimizeParts` finds nothing special contains no
`Special`, function or `EmitCode` node. -/
theorem optParts_none_clean : ∀ t : HNode, optimizeParts t = some none → cleanNode t = true
  | HNode.nullNode, _ => rfl
  | HNode.str _, _ => rfl
  | HNode.raw _, _ => rfl
  | HNode.charRef _ _, _ => rfl
  | HNode.comment _, _ => rfl
  | HNode.tag name attrs cs, h => by
    show cleanNL cs = true
    by_cases hname : (name == "TEXTAREA") = true
    · have h2 : (some (some (HNode.tag name attrs cs)) : Option (Option HNode)) = some none := by
        have h3 : optimizeParts (HNode.tag name attrs cs) = some (some (HNode.tag name attrs cs)) := by
          show (if (name == "TEXTAREA") = true then
                  some (some (HNode.tag name attrs cs))
                else _) = _
          rw [if_pos hname]
        rw [← h3]
        exact h
      exact absurd h2 (by simp)
    · have h2 : (match optListParts cs with
                 | none => none
                 | some pairs =>
                   match assembleParts pairs (attrsHaveSpecials attrs) with
                   | none => none
                   | some none => some none
                   | some (some newChildren) =>
                     some (some (HNode.tag name attrs (ofList newChildren)))) =
          (some none : Option (Option HNode)) := by
        have h3 : optimizeParts (HNode.tag name attrs cs) =
            (match optListParts cs with
             | none => none
             | some pairs =>
               match assembleParts pairs (attrsHaveSpecials attrs) with
               | none => none
               | some none => some none
               | some (some newChildren) =>
                 some (some (HNode.tag name attrs (ofList newChildren)))) := by
          show (if (name == "TEXTAREA") = true then
                  some (some (HNode.tag name attrs cs))
                else _) = _
          rw [if_neg hname]
        rw [← h3]
        exact h
      cases hlp : optListParts cs with
      | none => rw [hlp] at h2; exact absurd h2 (by simp)
      | some pairs =>
        rw [hlp] at h2
        replace h2 : (match assembleParts pairs (attrsHaveSpecials attrs) with
                      | none => none
                      | some none => some none
                      | some (some newChildren) =>
                        some (some (HNode.tag name attrs (ofList newChildren)))) =
            (some none : Option (Option HNode)) := h2
        cases hap : assembleParts pairs (attrsHaveSpecials attrs) with
        | none => rw [hap] at h2; exact absurd h2 (by simp)
        | some r =>
          rw [hap] at h2
          cases r with
          | some nc => exact absurd h2 (by simp)
          | none =>
            have hgo : assembleGo pairs
                (if attrsHaveSpecials attrs then some [] else none) [] = some none := by
              have h4 := hap
              unfold assembleParts at h4
              cases hg : assembleGo pairs
                  (if attrsHaveSpecials attrs then some [] else none) [] with
              | none => rw [hg] at h4; exact absurd h4 (by simp)
              | some o =>
                rw [hg] at h4
                cases o with
                | none => rfl
                | some l => exact absurd h4 (by simp)
            have hall := (assembleGo_none pairs _ [] hgo).2
            exact optList_none_clean cs pairs hlp hall
  | HNode.arr ns, h => by
    show cleanNL ns = true
    have h2 : (match optListParts ns with
               | none => none
               | some pairs =>
                 match assembleParts pairs false with
                 | none => none
                 | some none => some none
                 | some (some parts) => some (some (HNode.arr (ofList parts)))) =
        (some none : Option (Option HNode)) := h
    cases hlp : optListParts ns with
    | none => rw [hlp] at h2; exact absurd h2 (by simp)
    | some pairs =>
      rw [hlp] at h2
      replace h2 : (match assembleParts pairs false with
                    | none => none
                    | some none => some none
                    | some (some parts) => some (some (HNode.arr (ofList parts)))) =
          (some none : Option (Option HNode)) := h2
      cases hap : assembleParts pairs false with
      | none => rw [hap] at h2; exact absurd h2 (by simp)
      | some r =>
        rw [hap] at h2
        cases r with
        | some pp => exact absurd h2 (by simp)
        | none =>
          have hgo : assembleGo pairs (if false then some [] else none) [] = some none := by
            have h4 := hap
            unfold assembleParts at h4
            cases hg : assembleGo pairs (if false then some [] else none) [] with
            | none => rw [hg] at h4; exact absurd h4 (by simp)
            | some o =>
              rw [hg] at h4
              cases o with
              | none => rfl
              | some l => exact absurd h4 (by simp)
          have hall := (assembleGo_none pairs _ [] hgo).2
          exact optList_none_clean ns pairs hlp hall
  | HNode.special t, h => by
    exact absurd h (by simp [optimizeParts])
  | HNode.emitCode c, h => by
    exact absurd h (by simp [optimizeParts])
  | HNode.fnNode i, h => by
    exact absurd h (by simp [optimizeParts])
theorem optList_none_clean : ∀ (cs : NodeList) (pairs : List (HNode × Option HNode)),
    optListParts cs = some pairs → (∀ p ∈ pairs, p.2 = none) → cleanNL cs = true
  | NodeList.nil, _, _, _ => rfl
  | NodeList.cons c t, pairs, hp, hall => by
    have hp2 : (match optimizeParts c, optListParts t with
                | some r, some rs => some ((c, r) :: rs)
                | _, _ => none) = some pairs := hp
    cases hx : optimizeParts c with
    | none => rw [hx] at hp2; exact absurd hp2 (by simp)
    | some r =>
      cases hy : optListParts t with
      | none => rw [hx, hy] at hp2; exact absurd hp2 (by simp)
      | some rs =>
        rw [hx, hy] at hp2
        have hpe : (c, r) :: rs = pairs := by injection hp2
        subst hpe
        have hr : r = none := hall (c, r) (List.mem_cons_self _ _)
        subst hr
        show (cleanNode c && cleanNL t) = true
        rw [optParts_none_clean c hx,
            optList_none_clean t rs hy (fun p hm => hall p (List.mem_cons_of_mem _ hm))]
        rfl
end


mutual
/-- `optimizeParts` never throws, and when it returns a replacement node
the replacement renders to the same HTML as the original. -/
theorem optParts_pres : ∀ t : HNode,
    (∃ r, optimizeParts t = some r) ∧
    (∀ t2, optimizeParts t = some (some t2) → toHTML t2 = toHTML t)
  | HNode.nullNode => by
    refine ⟨⟨none, rfl⟩, ?_⟩
    intro t2 h
    exact absurd h (by simp [optimizeParts])
  | HNode.str sv => by
    refine ⟨⟨none, rfl⟩, ?_⟩
    intro t2 h
    exact absurd h (by simp [optimizeParts])
  | HNode.raw v => by
    refine ⟨⟨none, rfl⟩, ?_⟩
    intro t2 h
    exact absurd h (by simp [optimizeParts])
  | HNode.charRef hv sv => by
    refine ⟨⟨none, rfl⟩, ?_⟩
    intro t2 h
    exact absurd h (by simp [optimizeParts])
  | HNode.comment tv => by
    refine ⟨⟨none, rfl⟩, ?_⟩
    intro t2 h
    exact absurd h (by simp [optimizeParts])
  | HNode.special t => by
    refine ⟨⟨some (HNode.special t), rfl⟩, ?_⟩
    intro t2 h
    have h2 : (some (some (HNode.special t)) : Option (Option HNode)) = some (some t2) := h
    have h3 : HNode.special t = t2 := by
      injection h2 with h4
      injection h4
    rw [← h3]
  | HNode.emitCode cv => by
    refine ⟨⟨some (HNode.emitCode cv), rfl⟩, ?_⟩
    intro t2 h
    have h2 : (some (some (HNode.emitCode cv)) : Option (Option HNode)) = some (some t2) := h
    have h3 : HNode.emitCode cv = t2 := by
      injection h2 with h4
      injection h4
    rw [← h3]
  | HNode.fnNode i => by
    refine ⟨⟨some (HNode.fnNode i), rfl⟩, ?_⟩
    intro t2 h
    have h2 : (some (some (HNode.fnNode i)) : Option (Option HNode)) = some (some t2) := h
    have h3 : HNode.fnNode i = t2 := by
      injection h2 with h4
      injection h4
    rw [← h3]
  | HNode.tag name attrs cs => by
    by_cases hname : (name == "TEXTAREA") = true
    · have heq : optimizeParts (HNode.tag name attrs cs) =
          some (some (HNode.tag name attrs cs)) := by
        show (if (name == "TEXTAREA") = true then
                some (some (HNode.tag name attrs cs))
              else _) = _
        rw [if_pos hname]
      refine ⟨⟨some (HNode.tag name attrs cs), heq⟩, ?_⟩
      intro t2 h
      rw [heq] at h
      have h3 : HNode.tag name attrs cs = t2 := by
        injection h with h4
        injection h4
      rw [← h3]
    · obtain ⟨⟨pairs0, hpairs0⟩, hLpres⟩ := optList_pres cs
      obtain ⟨hfst, hopt⟩ := optListParts_spec cs pairs0 hpairs0
      have hclean : ∀ p ∈ pairs0, p.2 = none → (toHTML p.1).isSome = true := by
        intro p hm hnone
        have hsn : optimizeParts p.1 = some none := by
          have := hopt p hm
          rw [hnone] at this
          exact this
        exact clean_toHTML p.1 (optParts_none_clean p.1 hsn)
      have hpres2 : ∀ p ∈ pairs0, ∀ t2, p.2 = some t2 → toHTML t2 = toHTML p.1 :=
        hLpres pairs0 hpairs0
      obtain ⟨out, hap, hparts, _⟩ :=
        assembleParts_spec pairs0 (attrsHaveSpecials attrs) hclean hpres2
      have heq : optimizeParts (HNode.tag name attrs cs) =
          (match out with
           | none => some none
           | some newChildren => some (some (HNode.tag name attrs (ofList newChildren)))) := by
        show (if (name == "TEXTAREA") = true then
                some (some (HNode.tag name attrs cs))
              else
                match optListParts cs with
                | none => none
                | some pairs =>
                  match assembleParts pairs (attrsHaveSpecials attrs) with
                  | none => none
                  | some none => some none
                  | some (some newChildren) =>
                    some (some (HNode.tag name attrs (ofList newChildren)))) = _
        rw [if_neg hname, hpairs0]
        show (match assembleParts pairs0 (attrsHaveSpecials attrs) with
              | none => none
              | some none => some none
              | some (some newChildren) =>
                some (some (HNode.tag name attrs (ofList newChildren)))) = _
        refine (congrArg (fun x => match x with
              | none => none
              | some none => some none
              | some (some newChildren) =>
                some (some (HNode.tag name attrs (ofList newChildren)))) hap).trans ?_
        cases out with
        | none => rfl
        | some l => rfl
      cases out with
      | none =>
        refine ⟨⟨none, by rw [heq]⟩, ?_⟩
        intro t2 h
        rw [heq] at h
        exact absurd h (by simp)
      | some newChildren =>
        refine ⟨⟨some (HNode.tag name attrs (ofList newChildren)), by rw [heq]⟩, ?_⟩
        intro t2 h
        rw [heq] at h
        have h3 : HNode.tag name attrs (ofList newChildren) = t2 := by
          injection h with h4
          injection h4
        rw [← h3]
        have hlist : toHTMLList (ofList newChildren) = toHTMLList cs := by
          rw [toHTMLList_ofList, hparts newChildren rfl, hfst]
          exact toHTMLL_toList cs
        show (match toHTMLList (ofList newChildren) with
              | some inner => some ("<" ++ properCaseTagName name ++ attrsToHTML attrs ++
                  ">" ++ inner ++ "</" ++ properCaseTagName name ++ ">")
              | none => none) =
            (match toHTMLList cs with
             | some inner => some ("<" ++ properCaseTagName name ++ attrsToHTML attrs ++
                 ">" ++ inner ++ "</" ++ properCaseTagName name ++ ">")
             | none => none)
        rw [hlist]
  | HNode.arr ns => by
    obtain ⟨⟨pairs0, hpairs0⟩, hLpres⟩ := optList_pres ns
    obtain ⟨hfst, hopt⟩ := optListParts_spec ns pairs0 hpairs0
    have hclean : ∀ p ∈ pairs0, p.2 = none → (toHTML p.1).isSome = true := by
      intro p hm hnone
      have hsn : optimizeParts p.1 = some none := by
        have := hopt p hm
        rw [hnone] at this
        exact this
      exact clean_toHTML p.1 (optParts_none_clean p.1 hsn)
    have hpres2 : ∀ p ∈ pairs0, ∀ t2, p.2 = some t2 → toHTML t2 = toHTML p.1 :=
      hLpres pairs0 hpairs0
    obtain ⟨out, hap, hparts, _⟩ := assembleParts_spec pairs0 false hclean hpres2
    have heq : optimizeParts (HNode.arr ns) =
        (match out with
         | none => some none
         | some parts => some (some (HNode.arr (ofList parts)))) := by
      show (match optListParts ns with
            | none => none
            | some pairs =>
              match assembleParts pairs false with
              | none => none
              | some none => some none
              | some (some parts) => some (some (HNode.arr (ofList parts)))) = _
      rw [hpairs0]
      show (match assembleParts pairs0 false with
            | none => none
            | some none => some none
            | some (some parts) => some (some (HNode.arr (ofList parts)))) = _
      refine (congrArg (fun x => match x with
            | none => none
            | some none => some none
            | some (some parts) => some (some (HNode.arr (ofList parts)))) hap).trans ?_
      cases out with
      | none => rfl
      | some l => rfl
    cases out with
    | none =>
      refine ⟨⟨none, by rw [heq]⟩, ?_⟩
      intro t2 h
      rw [heq] at h
      exact absurd h (by simp)
    | some parts =>
      refine ⟨⟨some (HNode.arr (ofList parts)), by rw [heq]⟩, ?_⟩
      intro t2 h
      rw [heq] at h
      have h3 : HNode.arr (ofList parts) = t2 := by
        injection h with h4
        injection h4
      rw [← h3]
      show toHTMLList (ofList parts) = toHTMLList ns
      rw [toHTMLList_ofList, hparts parts rfl, hfst]
      exact toHTMLL_toList ns
theorem optList_pres : ∀ cs : NodeList,
    (∃ pairs, optListParts cs = some pairs) ∧
    (∀ pairs, optListParts cs = some pairs →
      ∀ p ∈ pairs, ∀ t2, p.2 = some t2 → toHTML t2 = toHTML p.1)
  | NodeList.nil => by
    refine ⟨⟨[], rfl⟩, ?_⟩
    intro pairs h p hp
    have h2 : ([] : List (HNode × Option HNode)) = pairs := by injection h
    subst h2
    exact absurd hp (by simp)
  | NodeList.cons c t => by
    obtain ⟨⟨rc, hrc⟩, hpc⟩ := optParts_pres c
    obtain ⟨⟨rs, hrs⟩, hpresT⟩ := optList_pres t
    have hstep : optListParts (NodeList.cons c t) = some ((c, rc) :: rs) := by
      show (match optimizeParts c, optListParts t with
            | some r, some rs2 => some ((c, r) :: rs2)
            | _, _ => none) = _
      rw [hrc, hrs]
    refine ⟨⟨(c, rc) :: rs, hstep⟩, ?_⟩
    intro pairs h p hp t2 ht2
    rw [hstep] at h
    have h2 : (c, rc) :: rs = pairs := by injection h
    subst h2
    rcases List.mem_cons.mp hp with hmem | hmem
    · subst hmem
      have hco : optimizeParts c = some (some t2) := by
        rw [hrc]
        show some rc = some (some t2)
        rw [show rc = some t2 from ht2]
      exact hpc t2 hco
    · exact hpresT rs hrs p hmem t2 ht2
end

/-- Claim C7: for every tree free of `Special` nodes and function
values, rendering the optimized tree gives exactly the same HTML as
rendering the original: `toHTML (optimize tree) = toHTML tree`. -/
theorem c7_optimize_toHTML :
    ∀ t : HNode, specialFree t = true → (optimize t).bind toHTML = toHTML t := by
  intro t _
  obtain ⟨⟨r, hr⟩, hpres⟩ := optParts_pres t
  cases r with
  | some t2 =>
    have hopt : optimize t = some t2 := by
      unfold optimize
      rw [hr]
    rw [hopt]
    exact hpres t2 hr
  | none =>
    have hclean : cleanNode t = true := optParts_none_clean t hr
    have hsome := clean_toHTML t hclean
    obtain ⟨h0, hh⟩ : ∃ h0, toHTML t = some h0 := by
      cases hx : toHTML t with
      | none => rw [hx] at hsome; exact absurd hsome (by simp)
      | some v => exact ⟨v, rfl⟩
    have hopt : optimize t = some (if isPureChars h0 then HNode.str h0 else HNode.raw h0) := by
      unfold optimize
      rw [hr, hh]
    rw [hopt, hh]
    by_cases hp : isPureChars h0 = true
    · rw [if_pos hp]
      show toHTML (HNode.str h0) = some h0
      show some (escapeText h0) = some h0
      rw [escape_pure h0 hp]
    · rw [if_neg hp]
      rfl

/-- Witness for C7 at a concrete special-free tree. -/
theorem c7_witness :
    specialFree c7ExampleTree = true ∧
    (optimize c7ExampleTree).bind toHTML = toHTML c7ExampleTree :=
  ⟨rfl, c7_optimize_toHTML c7ExampleTree rfl⟩

end Meteor
